import Mathlib

/-!
# Verification of the kiro-api gateway core

Shallow embedding of the kiro-api repository (an Anthropic-Messages ⇄ AWS
CodeWhisperer gateway written in Python) and proofs about it.

Conventions of the embedding:
* Python strings are modelled as `List Char`; Python byte strings as
  `List Nat` (each entry `< 256` where it matters).
* The SSE strings produced by `build_sse_event` (stream path) and the
  `SSEEvent` dictionaries of `response_parser.py` (batch path) are modelled
  as structured records that carry exactly the fields the source puts into
  the corresponding JSON objects.
* Async generators become pure functions returning the list of emitted
  records together with the final handler state; the `asyncio.Lock` in
  `token_manager.py` serialises the critical section of `get_token`, so a
  set of concurrent callers is modelled as a sequence of atomic
  `getTokenStep` executions (one per caller, in some order).
-/

namespace KiroApi

/-- Characters of a Python string, as a list. -/
abbrev Str := List Char

/-! ## `stream_handler.py`: tags and low-level string helpers -/

/-- `THINKING_START_TAG = "<thinking>"` (stream_handler.py). -/
def thinkingStartTag : Str := "<thinking>".toList

/-- `THINKING_END_TAG = "</thinking>"` (stream_handler.py). -/
def thinkingEndTag : Str := "</thinking>".toList

/-- Inner loop of `_pending_tag_suffix`: try lengths `l, l-1, …, 1`,
returning the first `length` with `buffer[-length:] == tag[:length]`. -/
def pendingTagSuffixGo (buffer tag : Str) : Nat → Nat
  | 0 => 0
  | l + 1 =>
    if buffer.drop (buffer.length - (l + 1)) = tag.take (l + 1) then l + 1
    else pendingTagSuffixGo buffer tag l

/-- `_pending_tag_suffix(buffer, tag)` (stream_handler.py, lines 18-26):
length of the longest suffix of `buffer` that is a proper prefix of
`tag` (at most `len(tag) - 1`), else 0. -/
def pendingTagSuffix (buffer tag : Str) : Nat :=
  if buffer = [] ∨ tag = [] then 0
  else pendingTagSuffixGo buffer tag (min buffer.length (tag.length - 1))

/-- Python `str.find(pat)`: index of the first occurrence of `pat` in `s`,
`none` standing for `-1`. -/
def findSub (s pat : Str) : Option Nat :=
  if pat.isPrefixOf s then some 0
  else
    match s with
    | [] => none
    | _ :: t => (findSub t pat).map (· + 1)

/-! ## `stream_handler.py`: the streaming translator

`StreamHandler.handle_stream` consumes the events extracted from the
upstream AWS Event-Stream (`event_stream_parser.extract_event_info`
classifies each frame as `initial-response`, `assistantResponseEvent` or
`toolUseEvent`) and yields Anthropic SSE strings.  We model the upstream
events as `UpEvent` and each yielded SSE string (produced by
`build_sse_event`) as a structured `SSERecord` carrying the fields the
source writes into the JSON payload. -/

/-- The `content_block` object of a `content_block_start` event
(`_build_content_block_start` / `_handle_tool_use_event`). -/
inductive BlockKind
  | text
  | thinking
  | toolUse (id name : Str)
  deriving DecidableEq, Repr

/-- The `delta` object of a `content_block_delta` event. -/
inductive DeltaKind
  | textDelta (text : Str)
  | thinkingDelta (thinking : Str)
  | inputJsonDelta (partialJson : Str)
  deriving DecidableEq, Repr

/-- One SSE record yielded by `StreamHandler.handle_stream`. -/
inductive SSERecord
  | messageStart (id model : Str) (inputTokens : Nat)
  | ping
  | contentBlockStart (index : Int) (block : BlockKind)
  | contentBlockDelta (index : Int) (delta : DeltaKind)
  | contentBlockStop (index : Int)
  | messageDelta (stopReason : Str) (outputTokens : Nat)
  | messageStop
  deriving DecidableEq, Repr

/-- An upstream event as classified by `extract_event_info`.  The
`toolUse` payload's `input` field is carried here as the already-converted
fragment of `_handle_tool_use_event` (a `str` input passes through, a
`dict` input stands for its `json.dumps` serialisation); `none` models an
absent or falsy (`{}` / `""`) value. -/
inductive UpEvent
  | initialResponse (conversationId : Option Str)
  | assistantResponse (content : Str)
  | toolUse (toolUseId name input : Option Str) (stop : Bool)
  deriving DecidableEq, Repr

/-- Python truthiness of an optional string field (`None` and `""` are
falsy). -/
def truthy : Option Str → Bool
  | none => false
  | some s => !s.isEmpty

/-- The mutable fields of `StreamHandler.__init__`. -/
structure HandlerState where
  responseBuffer : List Str := []
  contentBlockIndex : Int := -1
  contentBlockStarted : Bool := false
  contentBlockStartSent : Bool := false
  contentBlockStopSent : Bool := false
  conversationId : Option Str := none
  model : Str
  inputTokens : Nat
  messageStartSent : Bool := false
  messageId : Str
  currentToolUse : Option (Str × Str) := none
  toolInputBuffer : List Str := []
  toolUseId : Option Str := none
  toolName : Option Str := none
  processedToolUseIds : List Str := []
  allToolInputs : List Str := []
  inThinkBlock : Bool := false
  thinkBuffer : Str := []
  pendingStartTagChars : Nat := 0
  deriving Repr

/-- The `while self.think_buffer:` loop in `handle_stream` (lines
160-263), processing the accumulated text through the `<thinking>`-tag
splicer.  `fuel` bounds the number of loop iterations; every iteration
that does not `break` removes at least one character from the buffer, so
`thinkBuffer.length + 1` fuel (supplied by `spliceLoop`) reproduces the
Python loop exactly.  `emitLen = 0` here is the Python `emit_len <= 0`
test: `pending ≤ len(buffer)` always, so `emit_len` is never negative. -/
def spliceGo : Nat → HandlerState → List SSERecord × HandlerState
  | 0, s => ([], s)
  | fuel + 1, s =>
    if s.thinkBuffer = [] then ([], s)
    else if 0 < s.pendingStartTagChars then
      -- consume characters of a tag whose prefix was already matched
      if s.thinkBuffer.length < s.pendingStartTagChars then
        ([], { s with pendingStartTagChars := s.pendingStartTagChars - s.thinkBuffer.length,
                      thinkBuffer := [] })
      else
        spliceGo fuel { s with thinkBuffer := s.thinkBuffer.drop s.pendingStartTagChars,
                               pendingStartTagChars := 0 }
    else if s.inThinkBlock = false then
      match findSub s.thinkBuffer thinkingStartTag with
      | none =>
        let pending := pendingTagSuffix s.thinkBuffer thinkingStartTag
        if pending = s.thinkBuffer.length ∧ 0 < pending then
          -- whole buffer is a proper prefix of `<thinking>`: close the text
          -- block and open a thinking block speculatively
          let closeOut := if s.contentBlockStartSent then
              [SSERecord.contentBlockStop s.contentBlockIndex] else []
          let s1 := if s.contentBlockStartSent then
              { s with contentBlockStopSent := true, contentBlockStartSent := false } else s
          let idx := s1.contentBlockIndex + 1
          (closeOut ++ [SSERecord.contentBlockStart idx .thinking],
           { s1 with contentBlockIndex := idx, contentBlockStartSent := true,
                     contentBlockStarted := true, contentBlockStopSent := false,
                     inThinkBlock := true,
                     pendingStartTagChars := thinkingStartTag.length - pending,
                     thinkBuffer := [] })
        else
          let emitLen := s.thinkBuffer.length - pending
          if emitLen = 0 then ([], s)
          else
            -- emit the part that cannot belong to a tag
            let textChunk := s.thinkBuffer.take emitLen
            let (openOut, s1) :=
              if s.contentBlockStartSent then (([] : List SSERecord), s)
              else ([SSERecord.contentBlockStart (s.contentBlockIndex + 1) .text],
                    { s with contentBlockIndex := s.contentBlockIndex + 1,
                             contentBlockStartSent := true, contentBlockStarted := true,
                             contentBlockStopSent := false })
            let s2 := { s1 with responseBuffer := s1.responseBuffer ++ [textChunk],
                                thinkBuffer := s.thinkBuffer.drop emitLen }
            let (rest, s3) := spliceGo fuel s2
            (openOut ++ [SSERecord.contentBlockDelta s1.contentBlockIndex (.textDelta textChunk)]
               ++ rest, s3)
      | some p =>
        -- a complete `<thinking>` tag: emit the text before it, close the
        -- text block, open a thinking block
        let beforeText := s.thinkBuffer.take p
        let (beforeOut, s1) :=
          if beforeText = [] then (([] : List SSERecord), s)
          else
            let (openOut, s0) :=
              if s.contentBlockStartSent then (([] : List SSERecord), s)
              else ([SSERecord.contentBlockStart (s.contentBlockIndex + 1) .text],
                    { s with contentBlockIndex := s.contentBlockIndex + 1,
                             contentBlockStartSent := true, contentBlockStarted := true,
                             contentBlockStopSent := false })
            (openOut ++ [SSERecord.contentBlockDelta s0.contentBlockIndex (.textDelta beforeText)],
             { s0 with responseBuffer := s0.responseBuffer ++ [beforeText] })
        let (closeOut, s2) :=
          if s1.contentBlockStartSent then
            ([SSERecord.contentBlockStop s1.contentBlockIndex],
             { s1 with contentBlockStopSent := true, contentBlockStartSent := false })
          else ([], s1)
        let idx := s2.contentBlockIndex + 1
        let s3 := { s2 with contentBlockIndex := idx, contentBlockStartSent := true,
                            contentBlockStarted := true, contentBlockStopSent := false,
                            inThinkBlock := true, pendingStartTagChars := 0,
                            thinkBuffer := s.thinkBuffer.drop (p + thinkingStartTag.length) }
        let (rest, s4) := spliceGo fuel s3
        (beforeOut ++ closeOut ++ [SSERecord.contentBlockStart idx .thinking] ++ rest, s4)
    else
      match findSub s.thinkBuffer thinkingEndTag with
      | none =>
        let pending := pendingTagSuffix s.thinkBuffer thinkingEndTag
        let emitLen := s.thinkBuffer.length - pending
        if emitLen = 0 then ([], s)
        else
          let chunk := s.thinkBuffer.take emitLen
          let chunkOut := if chunk = [] then ([] : List SSERecord)
            else [SSERecord.contentBlockDelta s.contentBlockIndex (.thinkingDelta chunk)]
          let (rest, s2) := spliceGo fuel { s with thinkBuffer := s.thinkBuffer.drop emitLen }
          (chunkOut ++ rest, s2)
      | some q =>
        -- a complete `</thinking>` tag: emit the thinking text before it
        -- and close the thinking block
        let chunk := s.thinkBuffer.take q
        let chunkOut := if chunk = [] then ([] : List SSERecord)
          else [SSERecord.contentBlockDelta s.contentBlockIndex (.thinkingDelta chunk)]
        let (rest, s2) := spliceGo fuel
          { s with thinkBuffer := s.thinkBuffer.drop (q + thinkingEndTag.length),
                   contentBlockStopSent := true, contentBlockStartSent := false,
                   inThinkBlock := false }
        (chunkOut ++ [SSERecord.contentBlockStop s.contentBlockIndex] ++ rest, s2)

/-- The thinking-tag splicing loop with enough fuel for its input. -/
def spliceLoop (s : HandlerState) : List SSERecord × HandlerState :=
  spliceGo (s.thinkBuffer.length + 1) s

/-- `_handle_tool_use_event` (stream_handler.py, lines 302-390): the three
phases (start / input fragment / stop) of a `toolUseEvent`. -/
def handleToolUseEvent (s : HandlerState) (tid tname tinput : Option Str) (tstop : Bool) :
    List SSERecord × HandlerState :=
  let (startOut, s1) :=
    if truthy tid ∧ truthy tname ∧ s.currentToolUse = none then
      let (closeOut, sA) :=
        if s.contentBlockStartSent ∧ s.contentBlockStopSent = false then
          ([SSERecord.contentBlockStop s.contentBlockIndex],
           { s with contentBlockStopSent := true })
        else ([], s)
      let idx := sA.contentBlockIndex + 1
      (closeOut ++ [SSERecord.contentBlockStart idx (.toolUse (tid.getD []) (tname.getD []))],
       { sA with processedToolUseIds := sA.processedToolUseIds ++ [tid.getD []],
                 contentBlockIndex := idx,
                 contentBlockStarted := true,
                 currentToolUse := some (tid.getD [], tname.getD []),
                 toolUseId := tid, toolName := tname,
                 toolInputBuffer := [] })
    else ([], s)
  let (fragOut, s2) :=
    if s1.currentToolUse.isSome ∧ truthy tinput then
      let frag := tinput.getD []
      ([SSERecord.contentBlockDelta s1.contentBlockIndex (.inputJsonDelta frag)],
       { s1 with toolInputBuffer := s1.toolInputBuffer ++ [frag] })
    else ([], s1)
  let (stopOut, s3) :=
    if tstop ∧ s2.currentToolUse.isSome then
      ([SSERecord.contentBlockStop s2.contentBlockIndex],
       { s2 with allToolInputs := s2.allToolInputs ++ [s2.toolInputBuffer.flatten],
                 contentBlockStopSent := false, contentBlockStarted := false,
                 contentBlockStartSent := false, currentToolUse := none,
                 toolUseId := none, toolName := none, toolInputBuffer := [] })
    else ([], s2)
  (startOut ++ fragOut ++ stopOut, s3)

/-- The per-event dispatch of `handle_stream` (lines 108-268). -/
def handleEvent (s : HandlerState) : UpEvent → List SSERecord × HandlerState
  | .initialResponse cid =>
    let s1 := { s with conversationId := some (cid.getD s.messageId) }
    if s1.messageStartSent then ([], s1)
    else ([.messageStart s1.messageId s1.model s1.inputTokens, .ping],
          { s1 with messageStartSent := true })
  | .assistantResponse content =>
    -- close a dangling tool-use block first
    let (closeOut, s1) :=
      if s.currentToolUse.isSome ∧ s.contentBlockStopSent = false then
        ([SSERecord.contentBlockStop s.contentBlockIndex],
         { s with contentBlockStopSent := true, currentToolUse := none })
      else ([], s)
    if content = [] then (closeOut, s1)
    else
      let (out, s2) := spliceLoop { s1 with thinkBuffer := s1.thinkBuffer ++ content }
      (closeOut ++ out, s2)
  | .toolUse tid tname tinput tstop => handleToolUseEvent s tid tname tinput tstop

/-- `_count_tokens` (stream_handler.py, lines 430-452): the deterministic
fallback estimator `max(1, len(text) // 4)` (the `tiktoken` path depends
on an optional external package); empty text counts 0. -/
def countTokens (text : Str) : Nat :=
  if text = [] then 0 else max 1 (text.length / 4)

/-- End-of-stream epilogue of `handle_stream` (lines 270-296). -/
def finalize (s : HandlerState) : List SSERecord :=
  (if s.contentBlockStarted ∧ s.contentBlockStopSent = false
   then [SSERecord.contentBlockStop s.contentBlockIndex] else [])
  ++ [SSERecord.messageDelta "end_turn".toList
        (countTokens (s.responseBuffer.flatten ++ s.allToolInputs.flatten)),
      .messageStop]

/-- Folding `handle_stream`'s event loop over a list of upstream events. -/
def runEvents (s : HandlerState) : List UpEvent → List SSERecord × HandlerState
  | [] => ([], s)
  | e :: rest =>
    ((handleEvent s e).1 ++ (runEvents (handleEvent s e).2 rest).1,
     (runEvents (handleEvent s e).2 rest).2)

/-- `StreamHandler(model, input_tokens)` fresh state (`message_id` is the
timestamp-based `generate_message_id()` result, taken as a parameter). -/
def initState (model : Str) (inputTokens : Nat) (messageId : Str) : HandlerState :=
  { model := model, inputTokens := inputTokens, messageId := messageId }

/-- `StreamHandler.handle_stream`: all SSE records emitted for a full
upstream event sequence. -/
def handleStream (model : Str) (inputTokens : Nat) (messageId : Str)
    (events : List UpEvent) : List SSERecord :=
  (runEvents (initState model inputTokens messageId) events).1
    ++ finalize (runEvents (initState model inputTokens messageId) events).2

/-! ### Loop-level equations for `spliceLoop`

`spliceGo` is fuel-indexed; any fuel exceeding the buffer length gives the
same result, which yields clean one-step equations for `spliceLoop`. -/

@[simp] theorem length_thinkingStartTag : thinkingStartTag.length = 10 := rfl

@[simp] theorem length_thinkingEndTag : thinkingEndTag.length = 11 := rfl

theorem spliceGo_fuel (f₁ : Nat) : ∀ (f₂ : Nat) (s : HandlerState),
    s.thinkBuffer.length < f₁ → s.thinkBuffer.length < f₂ →
    spliceGo f₁ s = spliceGo f₂ s := by
  induction f₁ with
  | zero => intro f₂ s h₁ _; omega
  | succ f₁ ih =>
    intro f₂ s h₁ h₂
    match f₂, h₂ with
    | f₂ + 1, h₂ =>
      by_cases hbuf : s.thinkBuffer = []
      · rw [spliceGo, spliceGo]; simp [hbuf]
      · have hpos : 0 < s.thinkBuffer.length := List.length_pos.mpr hbuf
        by_cases hpend : 0 < s.pendingStartTagChars
        · by_cases hlt : s.thinkBuffer.length < s.pendingStartTagChars
          · rw [spliceGo, spliceGo]; simp [hbuf, hpend, hlt]
          · rw [spliceGo, spliceGo]
            simp only [if_neg hbuf, if_pos hpend, if_neg hlt]
            exact ih _ _ (by simp; omega) (by simp; omega)
        · by_cases hthink : s.inThinkBlock = false
          · rcases Option.eq_none_or_eq_some (findSub s.thinkBuffer thinkingStartTag)
              with hfind | ⟨p, hfind⟩
            · by_cases hspec : pendingTagSuffix s.thinkBuffer thinkingStartTag
                  = s.thinkBuffer.length ∧ 0 < pendingTagSuffix s.thinkBuffer thinkingStartTag
              · rw [spliceGo, spliceGo]
                simp [hbuf, hpend, hthink, hfind, hspec]
              · by_cases hemit : s.thinkBuffer.length
                    - pendingTagSuffix s.thinkBuffer thinkingStartTag = 0
                · rw [spliceGo, spliceGo]; simp [hbuf, hpend, hthink, hfind, hspec, hemit]
                · rw [spliceGo, spliceGo]
                  simp (disch := simp; omega) only
                    [if_neg hbuf, if_neg hpend, if_pos hthink, hfind, if_neg hspec,
                     if_neg hemit, ih f₂]
            · rw [spliceGo, spliceGo]
              simp (disch := simp; omega) only
                [if_neg hbuf, if_neg hpend, if_pos hthink, hfind, ih f₂]
          · rcases Option.eq_none_or_eq_some (findSub s.thinkBuffer thinkingEndTag)
              with hfind | ⟨q, hfind⟩
            · by_cases hemit : s.thinkBuffer.length
                  - pendingTagSuffix s.thinkBuffer thinkingEndTag = 0
              · rw [spliceGo, spliceGo]; simp [hbuf, hpend, hthink, hfind, hemit]
              · rw [spliceGo, spliceGo]
                simp (disch := simp; omega) only
                  [if_neg hbuf, if_neg hpend, if_neg hthink, hfind, if_neg hemit, ih f₂]
            · rw [spliceGo, spliceGo]
              simp (disch := simp; omega) only
                [if_neg hbuf, if_neg hpend, if_neg hthink, hfind, ih f₂]

theorem pendingTagSuffixGo_le (b t : Str) (l : Nat) : pendingTagSuffixGo b t l ≤ l := by
  induction l with
  | zero => simp [pendingTagSuffixGo]
  | succ l ih =>
    rw [pendingTagSuffixGo]
    split
    · exact Nat.le_refl _
    · exact Nat.le_trans ih (Nat.le_succ l)

theorem pendingTagSuffix_le (b t : Str) :
    pendingTagSuffix b t ≤ min b.length (t.length - 1) := by
  rw [pendingTagSuffix]
  split
  · exact Nat.zero_le _
  · exact pendingTagSuffixGo_le b t _

theorem pendingTagSuffix_le_length (b t : Str) : pendingTagSuffix b t ≤ b.length :=
  Nat.le_trans (pendingTagSuffix_le b t) (Nat.min_le_left _ _)

theorem spliceGo_nil (f : Nat) (s : HandlerState) (h : s.thinkBuffer = []) :
    spliceGo f s = ([], s) := by
  cases f with
  | zero => rw [spliceGo]
  | succ f => rw [spliceGo]; simp [h]

theorem spliceGo_eq_spliceLoop (f : Nat) (s : HandlerState)
    (h : s.thinkBuffer.length < f) : spliceGo f s = spliceLoop s :=
  spliceGo_fuel f (s.thinkBuffer.length + 1) s h (Nat.lt_succ_self _)

/-- A buffer none of which can belong to a `<thinking>` tag is emitted as
one `text_delta`, opening a text block when none is open. -/
theorem spliceLoop_clean_fresh (s : HandlerState)
    (hbuf : s.thinkBuffer ≠ [])
    (hpend : s.pendingStartTagChars = 0)
    (hthink : s.inThinkBlock = false)
    (hss : s.contentBlockStartSent = false)
    (hfind : findSub s.thinkBuffer thinkingStartTag = none)
    (hzero : pendingTagSuffix s.thinkBuffer thinkingStartTag = 0) :
    spliceLoop s =
      ([SSERecord.contentBlockStart (s.contentBlockIndex + 1) .text,
        SSERecord.contentBlockDelta (s.contentBlockIndex + 1) (.textDelta s.thinkBuffer)],
       { s with contentBlockIndex := s.contentBlockIndex + 1,
                contentBlockStartSent := true, contentBlockStarted := true,
                contentBlockStopSent := false,
                responseBuffer := s.responseBuffer ++ [s.thinkBuffer],
                thinkBuffer := [] }) := by
  have hpos : 0 < s.thinkBuffer.length := List.length_pos.mpr hbuf
  rw [spliceLoop, spliceGo]
  simp (disch := simp; omega) only [if_neg hbuf, hpend, hthink, hfind, hzero,
    Nat.lt_irrefl, Nat.sub_zero, if_true, if_false, spliceGo_eq_spliceLoop]
  simp [Nat.pos_iff_ne_zero.mp hpos, hss, hthink, hpend, List.take_length, List.drop_length,
    spliceLoop, spliceGo_nil]

/-- Same as `spliceLoop_clean_fresh` with a block already open. -/
theorem spliceLoop_clean_started (s : HandlerState)
    (hbuf : s.thinkBuffer ≠ [])
    (hpend : s.pendingStartTagChars = 0)
    (hthink : s.inThinkBlock = false)
    (hss : s.contentBlockStartSent = true)
    (hfind : findSub s.thinkBuffer thinkingStartTag = none)
    (hzero : pendingTagSuffix s.thinkBuffer thinkingStartTag = 0) :
    spliceLoop s =
      ([SSERecord.contentBlockDelta s.contentBlockIndex (.textDelta s.thinkBuffer)],
       { s with responseBuffer := s.responseBuffer ++ [s.thinkBuffer],
                thinkBuffer := [] }) := by
  have hpos : 0 < s.thinkBuffer.length := List.length_pos.mpr hbuf
  rw [spliceLoop, spliceGo]
  simp (disch := simp; omega) only [if_neg hbuf, hpend, hthink, hfind, hzero,
    Nat.lt_irrefl, Nat.sub_zero, if_true, if_false, spliceGo_eq_spliceLoop]
  simp [Nat.pos_iff_ne_zero.mp hpos, hss, hthink, hpend, List.take_length, List.drop_length,
    spliceLoop, spliceGo_nil]

/-! ### Properties of `findSub` and `pendingTagSuffix` -/

theorem findSub_eq_none_iff (s pat : Str) : findSub s pat = none ↔ ¬ pat <:+: s := by
  induction s with
  | nil =>
    rw [findSub]
    by_cases hpre : pat <+: ([] : Str)
    · have : pat = [] := List.prefix_nil.mp hpre
      subst this
      simp
    · have hni : ¬ pat <:+: ([] : Str) := fun hinf =>
        hpre (by simp [List.eq_nil_of_infix_nil hinf])
      simp [hpre, hni]
  | cons a t ih =>
    rw [findSub]
    by_cases hpre : pat <+: a :: t
    · simp [hpre, hpre.isInfix]
    · simp only [List.isPrefixOf_iff_prefix, if_neg hpre, Option.map_eq_none', ih,
        List.infix_cons_iff]
      tauto

theorem findSub_eq_none_of_infix {s c pat : Str} (h : findSub s pat = none)
    (hc : c <:+: s) : findSub c pat = none := by
  rw [findSub_eq_none_iff] at h ⊢
  exact fun hin => h (hin.trans hc)

theorem pendingTagSuffixGo_eq_zero_iff (b t : Str) (l : Nat) :
    pendingTagSuffixGo b t l = 0 ↔
      ∀ k, 1 ≤ k → k ≤ l → b.drop (b.length - k) ≠ t.take k := by
  induction l with
  | zero => simp [pendingTagSuffixGo]; omega
  | succ l ih =>
    rw [pendingTagSuffixGo]
    by_cases hc : b.drop (b.length - (l + 1)) = t.take (l + 1)
    · simp only [if_pos hc]
      constructor
      · intro h; omega
      · intro h
        exact absurd hc (h (l + 1) (by omega) (by omega))
    · simp only [if_neg hc, ih]
      constructor
      · intro h k h1 h2
        rcases Nat.lt_or_ge k (l + 1) with hk | hk
        · exact h k h1 (by omega)
        · have : k = l + 1 := by omega
          subst this; exact hc
      · intro h k h1 h2
        exact h k h1 (by omega)

theorem pendingTagSuffix_eq_zero_append {a b t : Str}
    (h : pendingTagSuffix (a ++ b) t = 0) : pendingTagSuffix b t = 0 := by
  by_cases hb : b = []
  · simp [pendingTagSuffix, hb]
  · by_cases ht : t = []
    · simp [pendingTagSuffix, ht]
    · rw [pendingTagSuffix, if_neg (by simp [hb, ht])] at h ⊢
      rw [pendingTagSuffixGo_eq_zero_iff] at h ⊢
      intro k h1 h2 hk
      have hkb : k ≤ b.length := le_trans h2 (Nat.min_le_left _ _)
      have hdrop : (a ++ b).drop ((a ++ b).length - k) = b.drop (b.length - k) := by
        have : (a ++ b).length - k = a.length + (b.length - k) := by
          simp only [List.length_append]; omega
        rw [this, List.drop_append]
      refine h k h1 ?_ (by rw [hdrop, hk])
      simp only [List.length_append]
      have := Nat.min_le_right b.length (t.length - 1)
      omega

/-! ### C3: text pass-through for tag-free input -/

/-- Concatenation of the texts of all emitted `text_delta` records. -/
def textDeltaConcat : List SSERecord → Str
  | [] => []
  | .contentBlockDelta _ (.textDelta t) :: rest => t ++ textDeltaConcat rest
  | _ :: rest => textDeltaConcat rest

@[simp] theorem textDeltaConcat_append (a b : List SSERecord) :
    textDeltaConcat (a ++ b) = textDeltaConcat a ++ textDeltaConcat b := by
  induction a with
  | nil => simp [textDeltaConcat]
  | cons r rest ih =>
    cases r with
    | contentBlockDelta i d =>
      cases d <;> simp [textDeltaConcat, ih]
    | _ => simp [textDeltaConcat, ih]

/-- The handler-state fields that are quiescent between chunks when no
thinking tag is in play. -/
def CleanState (s : HandlerState) : Prop :=
  s.thinkBuffer = [] ∧ s.pendingStartTagChars = 0 ∧ s.inThinkBlock = false ∧
    s.currentToolUse = none

theorem handleEvent_clean (s : HandlerState) (c : Str) (hs : CleanState s)
    (hfc : findSub c thinkingStartTag = none)
    (hzc : pendingTagSuffix c thinkingStartTag = 0) :
    textDeltaConcat (handleEvent s (.assistantResponse c)).1 = c ∧
    CleanState (handleEvent s (.assistantResponse c)).2 := by
  obtain ⟨hbuf, hpend, hthink, htool⟩ := hs
  by_cases hc : c = []
  · subst hc
    have hstep : handleEvent s (.assistantResponse []) = ([], s) := by
      simp [handleEvent, htool]
    rw [hstep]
    exact ⟨rfl, hbuf, hpend, hthink, htool⟩
  · have hstep : handleEvent s (.assistantResponse c)
        = spliceLoop { s with thinkBuffer := s.thinkBuffer ++ c } := by
      simp [handleEvent, htool, hc]
    by_cases hss : s.contentBlockStartSent = true
    · have heq := spliceLoop_clean_started { s with thinkBuffer := s.thinkBuffer ++ c }
        (by simp [hbuf, hc]) (by simp [hpend]) (by simp [hthink]) (by simp [hss])
        (by simp [hbuf, hfc]) (by simp [hbuf, hzc])
      rw [hstep, heq]
      refine ⟨by simp [textDeltaConcat, hbuf], ?_⟩
      exact ⟨rfl, by simp [hpend], by simp [hthink], by simp [htool]⟩
    · have heq := spliceLoop_clean_fresh { s with thinkBuffer := s.thinkBuffer ++ c }
        (by simp [hbuf, hc]) (by simp [hpend]) (by simp [hthink]) (by simpa using hss)
        (by simp [hbuf, hfc]) (by simp [hbuf, hzc])
      rw [hstep, heq]
      refine ⟨by simp [textDeltaConcat, hbuf], ?_⟩
      exact ⟨rfl, by simp [hpend], by simp [hthink], by simp [htool]⟩

theorem runEvents_clean (chunks : List Str) :
    ∀ (s : HandlerState), CleanState s →
    (∀ c ∈ chunks, findSub c thinkingStartTag = none) →
    (∀ c ∈ chunks, pendingTagSuffix c thinkingStartTag = 0) →
    textDeltaConcat (runEvents s (chunks.map .assistantResponse)).1 = chunks.flatten ∧
    CleanState (runEvents s (chunks.map .assistantResponse)).2 := by
  induction chunks with
  | nil => intro s hs _ _; simpa [runEvents, textDeltaConcat]
  | cons c rest ih =>
    intro s hs hfind hzero
    obtain ⟨h1, h2⟩ := handleEvent_clean s c hs (hfind c (by simp)) (hzero c (by simp))
    obtain ⟨h3, h4⟩ := ih (handleEvent s (.assistantResponse c)).2 h2
      (fun d hd => hfind d (by simp [hd])) (fun d hd => hzero d (by simp [hd]))
    simp only [List.map_cons, runEvents, textDeltaConcat_append, h1, h3, h4,
      List.flatten_cons, and_true]

@[simp] theorem textDeltaConcat_finalize (s : HandlerState) :
    textDeltaConcat (finalize s) = [] := by
  rw [finalize]; split <;> simp [textDeltaConcat]

/-- C3 (amended): if the input text contains no `<thinking>` and no chunk
boundary leaves the text received so far ending in a nonempty proper
prefix of `<thinking>`, the emitted `text_delta` texts concatenate to the
input. -/
theorem C3_text_concat_eq_input (model messageId : Str) (inputTokens : Nat)
    (chunks : List Str)
    (hno : findSub chunks.flatten thinkingStartTag = none)
    (hbound : ∀ i, i ≤ chunks.length →
      pendingTagSuffix ((chunks.take i).flatten) thinkingStartTag = 0) :
    textDeltaConcat (handleStream model inputTokens messageId
      (chunks.map .assistantResponse)) = chunks.flatten := by
  have hfind : ∀ c ∈ chunks, findSub c thinkingStartTag = none := fun c hc =>
    findSub_eq_none_of_infix hno (List.infix_of_mem_flatten hc)
  have hzero : ∀ c ∈ chunks, pendingTagSuffix c thinkingStartTag = 0 := by
    intro c hc
    obtain ⟨i, hi, rfl⟩ := List.mem_iff_getElem.mp hc
    have h1 := hbound (i + 1) (by omega)
    have heq : (chunks.take (i + 1)).flatten = (chunks.take i).flatten ++ chunks[i] := by
      rw [List.take_succ, List.getElem?_eq_getElem hi]
      simp only [Option.toList_some, List.flatten_append, List.flatten_cons,
        List.flatten_nil, List.append_nil]
    rw [heq] at h1
    exact pendingTagSuffix_eq_zero_append h1
  have hrun := runEvents_clean chunks (initState model inputTokens messageId)
    ⟨rfl, rfl, rfl, rfl⟩ hfind hzero
  rw [handleStream, textDeltaConcat_append, hrun.1, textDeltaConcat_finalize,
    List.append_nil]

/-- C3 counterexample: the text `"<"` contains no `<thinking>`, yet the
handler swallows it into a speculative thinking block, so no `text_delta`
record ever reproduces it. -/
theorem C3_counterexample :
    findSub ("<".toList) thinkingStartTag = none ∧
    textDeltaConcat (handleStream ("m".toList) 0 ("mid".toList)
      [.assistantResponse ("<".toList)]) ≠ "<".toList := by
  decide

/-- Witness for `C3_text_concat_eq_input` at a concrete chunked input. -/
theorem C3_text_concat_eq_input_witness :
    textDeltaConcat (handleStream ("m".toList) 0 ("mid".toList)
      (["ab".toList, "cd".toList].map .assistantResponse))
      = ["ab".toList, "cd".toList].flatten :=
  C3_text_concat_eq_input ("m".toList) ("mid".toList) 0 ["ab".toList, "cd".toList]
    (by decide) (by decide)

/-! ### Branch equations of the splicer for the `<thinking>` block
structure (C2) -/

/-- A complete `<thinking>` tag found at `p` with text before it and no
block open: emit the text block, close it, open a thinking block. -/
theorem spliceLoop_found_fresh (s : HandlerState) (p : Nat)
    (hbuf : s.thinkBuffer ≠ [])
    (hpend : s.pendingStartTagChars = 0)
    (hthink : s.inThinkBlock = false)
    (hss : s.contentBlockStartSent = false)
    (hfind : findSub s.thinkBuffer thinkingStartTag = some p)
    (hp : s.thinkBuffer.take p ≠ []) :
    spliceLoop s =
      ([SSERecord.contentBlockStart (s.contentBlockIndex + 1) .text,
        SSERecord.contentBlockDelta (s.contentBlockIndex + 1) (.textDelta (s.thinkBuffer.take p)),
        SSERecord.contentBlockStop (s.contentBlockIndex + 1),
        SSERecord.contentBlockStart (s.contentBlockIndex + 2) .thinking]
         ++ (spliceLoop { s with
              contentBlockIndex := s.contentBlockIndex + 2,
              contentBlockStartSent := true, contentBlockStarted := true,
              contentBlockStopSent := false, inThinkBlock := true,
              pendingStartTagChars := 0,
              responseBuffer := s.responseBuffer ++ [s.thinkBuffer.take p],
              thinkBuffer := s.thinkBuffer.drop (p + thinkingStartTag.length) }).1,
       (spliceLoop { s with
              contentBlockIndex := s.contentBlockIndex + 2,
              contentBlockStartSent := true, contentBlockStarted := true,
              contentBlockStopSent := false, inThinkBlock := true,
              pendingStartTagChars := 0,
              responseBuffer := s.responseBuffer ++ [s.thinkBuffer.take p],
              thinkBuffer := s.thinkBuffer.drop (p + thinkingStartTag.length) }).2) := by
  have hpos : 0 < s.thinkBuffer.length := List.length_pos.mpr hbuf
  rw [spliceLoop, spliceGo]
  simp (disch := simp; omega) only [if_neg hbuf, hpend, hthink, hfind, hss,
    Nat.lt_irrefl, if_true, if_false, spliceGo_eq_spliceLoop]
  simp [hp, hss, hpend, hthink]
  rw [show s.contentBlockIndex + 1 + 1 = s.contentBlockIndex + 2 from by omega]
  simp

/-- A complete `</thinking>` tag found at `q` while inside a thinking
block: emit the thinking text before it and close the block. -/
theorem spliceLoop_endTag (s : HandlerState) (q : Nat)
    (hbuf : s.thinkBuffer ≠ [])
    (hpend : s.pendingStartTagChars = 0)
    (hthink : s.inThinkBlock = true)
    (hfind : findSub s.thinkBuffer thinkingEndTag = some q) :
    spliceLoop s =
      ((if s.thinkBuffer.take q = [] then [] else
          [SSERecord.contentBlockDelta s.contentBlockIndex (.thinkingDelta (s.thinkBuffer.take q))])
        ++ [SSERecord.contentBlockStop s.contentBlockIndex]
        ++ (spliceLoop { s with
              contentBlockStopSent := true, contentBlockStartSent := false,
              inThinkBlock := false,
              thinkBuffer := s.thinkBuffer.drop (q + thinkingEndTag.length) }).1,
       (spliceLoop { s with
              contentBlockStopSent := true, contentBlockStartSent := false,
              inThinkBlock := false,
              thinkBuffer := s.thinkBuffer.drop (q + thinkingEndTag.length) }).2) := by
  have hpos : 0 < s.thinkBuffer.length := List.length_pos.mpr hbuf
  rw [spliceLoop, spliceGo]
  simp (disch := simp; omega) only [if_neg hbuf, hpend, hthink, hfind,
    Nat.lt_irrefl, if_true, if_false, Bool.true_eq_false, spliceGo_eq_spliceLoop]

theorem findSub_of_leading (s pat : Str) (h : pat <+: s) : findSub s pat = some 0 := by
  cases s with
  | nil => rw [findSub, if_pos (List.isPrefixOf_iff_prefix.mpr h)]
  | cons a t => rw [findSub, if_pos (List.isPrefixOf_iff_prefix.mpr h)]

/-- `str.find` locates a pattern immediately after `xs` when the pattern
does not occur in `xs` and cannot overlap itself (no nonempty proper
suffix of `tag` is also a prefix of `tag`). -/
theorem findSub_first (tag : Str)
    (hov : ∀ k, 1 ≤ k → k < tag.length → tag.drop (tag.length - k) ≠ tag.take k) :
    ∀ (xs rest : Str), ¬ tag <:+: xs →
      findSub (xs ++ (tag ++ rest)) tag = some xs.length := by
  intro xs
  induction xs with
  | nil =>
    intro rest _
    simp only [List.nil_append]
    rw [findSub_of_leading _ _ (List.prefix_append tag rest)]
    rfl
  | cons x xs ih =>
    intro rest hni
    have hnpre : ¬ tag <+: (x :: (xs ++ (tag ++ rest))) := by
      intro hpre
      rcases le_or_lt tag.length (x :: xs).length with hle | hlt
      · -- the occurrence would lie inside `x :: xs`
        have h1 : tag = ((x :: xs) ++ (tag ++ rest)).take tag.length := by
          have := List.prefix_iff_eq_take.mp hpre
          simpa [List.cons_append] using this
        rw [List.take_append_of_le_length hle] at h1
        exact hni ((List.prefix_iff_eq_take.mpr h1).isInfix)
      · -- the occurrence would overlap the genuine occurrence of `tag`
        have h1 : tag = ((x :: xs) ++ (tag ++ rest)).take tag.length := by
          have := List.prefix_iff_eq_take.mp hpre
          simpa [List.cons_append] using this
        rw [List.take_append_eq_append_take,
          List.take_of_length_le (Nat.le_of_lt hlt),
          List.take_append_of_le_length
            (by omega : tag.length - (x :: xs).length ≤ tag.length)] at h1
        have h2 := congrArg (List.drop (x :: xs).length) h1
        rw [List.drop_left] at h2
        have hk := hov (tag.length - (x :: xs).length) (by omega) (by simp; omega)
        rw [show tag.length - (tag.length - (x :: xs).length) = (x :: xs).length
          by omega] at hk
        exact hk h2
    have hstep : findSub ((x :: xs) ++ (tag ++ rest)) tag
        = (findSub (xs ++ (tag ++ rest)) tag).map (· + 1) := by
      rw [List.cons_append, findSub,
        if_neg (fun h => hnpre (List.isPrefixOf_iff_prefix.mp h))]
    rw [hstep, ih rest (fun h => hni (List.infix_cons h))]
    rfl

/-- C2 (amended): a single-chunk text `P ++ "<thinking>" ++ Q ++
"</thinking>" ++ R` with `P`, `R` nonempty, no `<thinking>` inside `P`,
no `</thinking>` inside `Q`, and no full or trailing-prefix `<thinking>`
inside `R` produces exactly: a text block carrying `P`, a thinking block
carrying `Q`, and a text block carrying `R`. -/
theorem C2_thinking_blocks (model messageId : Str) (inputTokens : Nat) (P Q R : Str)
    (hP : P ≠ []) (hR : R ≠ [])
    (hPn : ¬ thinkingStartTag <:+: P)
    (hQn : ¬ thinkingEndTag <:+: Q)
    (hRn : findSub R thinkingStartTag = none)
    (hRp : pendingTagSuffix R thinkingStartTag = 0) :
    handleStream model inputTokens messageId
      [.assistantResponse (P ++ thinkingStartTag ++ Q ++ thinkingEndTag ++ R)] =
      [SSERecord.contentBlockStart 0 .text,
       SSERecord.contentBlockDelta 0 (.textDelta P),
       SSERecord.contentBlockStop 0,
       SSERecord.contentBlockStart 1 .thinking]
      ++ (if Q = [] then [] else [SSERecord.contentBlockDelta 1 (.thinkingDelta Q)])
      ++ [SSERecord.contentBlockStop 1,
          SSERecord.contentBlockStart 2 .text,
          SSERecord.contentBlockDelta 2 (.textDelta R),
          SSERecord.contentBlockStop 2,
          SSERecord.messageDelta ("end_turn".toList) (countTokens (P ++ R)),
          SSERecord.messageStop] := by
  have hovS : ∀ k, 1 ≤ k → k < thinkingStartTag.length →
      thinkingStartTag.drop (thinkingStartTag.length - k) ≠ thinkingStartTag.take k := by
    decide
  have hovE : ∀ k, 1 ≤ k → k < thinkingEndTag.length →
      thinkingEndTag.drop (thinkingEndTag.length - k) ≠ thinkingEndTag.take k := by
    decide
  have hfindT := findSub_first thinkingStartTag hovS P (Q ++ (thinkingEndTag ++ R)) hPn
  have hfindQ := findSub_first thinkingEndTag hovE Q R hQn
  have hTne : P ++ (thinkingStartTag ++ (Q ++ (thinkingEndTag ++ R))) ≠ [] := by
    simp [hP]
  have hQER : Q ++ (thinkingEndTag ++ R) ≠ [] := by
    simp [thinkingEndTag]
  -- the one assistant event feeds the whole text through the splicer
  rw [handleStream]
  simp only [runEvents]
  have hstep : handleEvent (initState model inputTokens messageId)
      (.assistantResponse (P ++ thinkingStartTag ++ Q ++ thinkingEndTag ++ R))
      = spliceLoop { initState model inputTokens messageId with
          thinkBuffer := P ++ (thinkingStartTag ++ (Q ++ (thinkingEndTag ++ R))) } := by
    rw [handleEvent]
    simp [initState, hTne]
  rw [hstep]
  -- iteration 1: the `<thinking>` tag is found right after `P`
  rw [spliceLoop_found_fresh _ P.length (by simpa using hTne) rfl rfl rfl
    (by simpa using hfindT) (by simpa [List.take_left] using hP)]
  -- iteration 2: the `</thinking>` tag is found right after `Q`
  simp only [List.take_left, List.drop_append, List.drop_left]
  rw [spliceLoop_endTag _ Q.length (by simpa using hQER) rfl rfl
    (by simpa using hfindQ)]
  simp only [List.take_left, List.drop_append, List.drop_left]
  -- iteration 3: `R` is plain text opening a fresh text block
  rw [spliceLoop_clean_fresh _ (by simpa using hR) rfl rfl rfl
    (by simpa using hRn) (by simpa using hRp)]
  -- epilogue
  rw [finalize]
  simp [countTokens, List.append_nil, initState]

/-- The kinds of the `content_block_start` records, in emission order. -/
def blockKinds (out : List SSERecord) : List BlockKind :=
  out.filterMap fun r => match r with
    | .contentBlockStart _ k => some k
    | _ => none

/-- C2 counterexample: with `P = ""` (input `"<thinking>a</thinking>b"` in
one chunk) the handler opens no leading text block: the block sequence is
`[thinking, text]`, not `[text, thinking, text]` as the claim requires. -/
theorem C2_counterexample :
    blockKinds (handleStream ("m".toList) 0 ("mid".toList)
      [.assistantResponse (([] : Str) ++ thinkingStartTag ++ "a".toList
        ++ thinkingEndTag ++ "b".toList)])
      ≠ [BlockKind.text, BlockKind.thinking, BlockKind.text] := by
  decide

/-- Witness for `C2_thinking_blocks` at `P = "a"`, `Q = "b"`, `R = "c"`. -/
theorem C2_thinking_blocks_witness :
    handleStream ("m".toList) 0 ("mid".toList)
      [.assistantResponse ("a".toList ++ thinkingStartTag ++ "b".toList
        ++ thinkingEndTag ++ "c".toList)] =
      [SSERecord.contentBlockStart 0 .text,
       SSERecord.contentBlockDelta 0 (.textDelta ("a".toList)),
       SSERecord.contentBlockStop 0,
       SSERecord.contentBlockStart 1 .thinking]
      ++ (if "b".toList = ([] : Str) then [] else
          [SSERecord.contentBlockDelta 1 (.thinkingDelta ("b".toList))])
      ++ [SSERecord.contentBlockStop 1,
          SSERecord.contentBlockStart 2 .text,
          SSERecord.contentBlockDelta 2 (.textDelta ("c".toList)),
          SSERecord.contentBlockStop 2,
          SSERecord.messageDelta ("end_turn".toList)
            (countTokens ("a".toList ++ "c".toList)),
          SSERecord.messageStop] :=
  C2_thinking_blocks ("m".toList) ("mid".toList) 0 ("a".toList) ("b".toList) ("c".toList)
    (by decide) (by decide) (by decide) (by decide) (by decide) (by decide)

/-! ### C1: ordering of the emitted SSE records

A small scanner checks the Anthropic stream contract over the emitted
records: `message_start` before any `content_block_*`, block starts and
stops strictly alternating with matching indices `0, 1, 2, …` (never two
stops for one start), and `message_stop` last. -/

structure ScanState where
  seenMsgStart : Bool
  openBlock : Option Int
  nextIdx : Int
  deriving DecidableEq, Repr

def scanStep (σ : ScanState) : SSERecord → Option ScanState
  | .messageStart _ _ _ => some { σ with seenMsgStart := true }
  | .ping => some σ
  | .contentBlockStart i _ =>
    if σ.seenMsgStart ∧ σ.openBlock = none ∧ i = σ.nextIdx then
      some { σ with openBlock := some i, nextIdx := i + 1 }
    else none
  | .contentBlockDelta _ _ => if σ.seenMsgStart then some σ else none
  | .contentBlockStop i =>
    if σ.openBlock = some i then some { σ with openBlock := none } else none
  | .messageDelta _ _ => some σ
  | .messageStop => some σ

def scanList (σ : ScanState) : List SSERecord → Option ScanState
  | [] => some σ
  | r :: rest =>
    match scanStep σ r with
    | none => none
    | some σ2 => scanList σ2 rest

def initScan : ScanState := ⟨false, none, 0⟩

/-- The ordering property exactly as the claim states it: the scanner
accepts (message_start precedence, alternating balanced starts/stops) and
`message_stop` is the last record.  A block left open at end of stream is
tolerated here (the claim only constrains each stop relative to its start
and the next start). -/
def c1OrderingAsStated (out : List SSERecord) : Bool :=
  (scanList initScan out).isSome && (out.getLast? == some .messageStop)

/-- The amended, stronger property: additionally every opened block is
closed by end of stream. -/
def sseWellFormed (out : List SSERecord) : Bool :=
  match scanList initScan out with
  | some σ => (σ.openBlock == none) && (out.getLast? == some .messageStop)
  | none => false

theorem scanList_append (σ : ScanState) (a b : List SSERecord) :
    scanList σ (a ++ b) = (scanList σ a).bind fun σ2 => scanList σ2 b := by
  induction a generalizing σ with
  | nil => simp [scanList]
  | cons r rest ih =>
    simp only [List.cons_append, scanList]
    cases scanStep σ r with
    | none => simp
    | some σ2 => simp [ih]

/-- Scanner state determined by the handler state. -/
def scanOf (s : HandlerState) : ScanState :=
  { seenMsgStart := s.messageStartSent,
    openBlock := if s.contentBlockStartSent then some s.contentBlockIndex else none,
    nextIdx := s.contentBlockIndex + 1 }

/-- Relations between the handler's flags that hold throughout a stream of
`assistantResponseEvent`s after `message_start` was sent. -/
def FlagsInv (s : HandlerState) : Prop :=
  s.currentToolUse = none ∧
  s.messageStartSent = true ∧
  s.contentBlockStopSent = (s.contentBlockStarted && !s.contentBlockStartSent) ∧
  (s.contentBlockStartSent = true → s.contentBlockStarted = true) ∧
  (s.inThinkBlock = true → s.contentBlockStartSent = true)

theorem spliceGo_scan : ∀ (fuel : Nat) (s : HandlerState),
    s.thinkBuffer.length < fuel → FlagsInv s →
    scanList (scanOf s) (spliceGo fuel s).1 = some (scanOf (spliceGo fuel s).2) ∧
    FlagsInv (spliceGo fuel s).2 := by
  intro fuel
  induction fuel with
  | zero => intro s hlen _; omega
  | succ fuel ih =>
    intro s hlen hinv
    obtain ⟨htool, hmsg, hstop, hsb, hib⟩ := hinv
    by_cases hbuf : s.thinkBuffer = []
    · rw [spliceGo]
      simp only [if_pos hbuf]
      exact ⟨by simp [scanList], htool, hmsg, hstop, hsb, hib⟩
    · have hpos : 0 < s.thinkBuffer.length := List.length_pos.mpr hbuf
      by_cases hpend : 0 < s.pendingStartTagChars
      · by_cases hlt : s.thinkBuffer.length < s.pendingStartTagChars
        · rw [spliceGo]
          simp only [if_neg hbuf, if_pos hpend, if_pos hlt]
          exact ⟨rfl, htool, hmsg, hstop, hsb, hib⟩
        · rw [spliceGo]
          simp only [if_neg hbuf, if_pos hpend, if_neg hlt]
          exact ih
            { s with
                thinkBuffer := s.thinkBuffer.drop s.pendingStartTagChars,
                pendingStartTagChars := 0 }
            (by simp; omega) ⟨htool, hmsg, hstop, hsb, hib⟩
      · by_cases hthink : s.inThinkBlock = false
        · rcases Option.eq_none_or_eq_some (findSub s.thinkBuffer thinkingStartTag)
            with hfind | ⟨p, hfind⟩
          · by_cases hspec : pendingTagSuffix s.thinkBuffer thinkingStartTag
                = s.thinkBuffer.length ∧ 0 < pendingTagSuffix s.thinkBuffer thinkingStartTag
            · -- speculative thinking block
              rw [spliceGo]
              simp only [if_neg hbuf, if_neg hpend, if_pos hthink, hfind, if_pos hspec]
              by_cases hss : s.contentBlockStartSent = true
              · constructor
                · simp [scanList, scanStep, scanOf, hss, hmsg]
                · exact ⟨by simp [hss, htool], by simp [hss, hmsg], by simp [hss],
                    by simp [hss], by simp [hss]⟩
              · constructor
                · simp [scanList, scanStep, scanOf, hss, hmsg]
                · exact ⟨by simp [hss, htool], by simp [hss, hmsg], by simp [hss],
                    by simp [hss], by simp [hss]⟩
            · by_cases hemit : s.thinkBuffer.length
                  - pendingTagSuffix s.thinkBuffer thinkingStartTag = 0
              · rw [spliceGo]
                simp only [if_neg hbuf, if_neg hpend, if_pos hthink, hfind, if_neg hspec,
                  if_pos hemit]
                exact ⟨by simp [scanList], htool, hmsg, hstop, hsb, hib⟩
              · -- emit a text chunk
                rw [spliceGo]
                simp only [if_neg hbuf, if_neg hpend, if_pos hthink, hfind, if_neg hspec,
                  if_neg hemit]
                by_cases hss : s.contentBlockStartSent = true
                · simp only [if_pos hss]
                  have hrec := ih { s with
                      responseBuffer := s.responseBuffer ++
                        [s.thinkBuffer.take (s.thinkBuffer.length
                          - pendingTagSuffix s.thinkBuffer thinkingStartTag)],
                      thinkBuffer := s.thinkBuffer.drop (s.thinkBuffer.length
                        - pendingTagSuffix s.thinkBuffer thinkingStartTag) }
                    (by simp; omega) ⟨htool, hmsg, hstop, hsb, hib⟩
                  refine ⟨?_, hrec.2⟩
                  rw [show ([] : List SSERecord) ++
                    [SSERecord.contentBlockDelta s.contentBlockIndex
                      (.textDelta (s.thinkBuffer.take (s.thinkBuffer.length
                        - pendingTagSuffix s.thinkBuffer thinkingStartTag)))] ++
                    (spliceGo fuel _).1 = _ from rfl]
                  rw [scanList_append]
                  simpa [scanList, scanStep, scanOf, hmsg] using hrec.1
                · simp only [if_neg hss]
                  have hrec := ih { s with
                      contentBlockIndex := s.contentBlockIndex + 1,
                      contentBlockStartSent := true, contentBlockStarted := true,
                      contentBlockStopSent := false,
                      responseBuffer := s.responseBuffer ++
                        [s.thinkBuffer.take (s.thinkBuffer.length
                          - pendingTagSuffix s.thinkBuffer thinkingStartTag)],
                      thinkBuffer := s.thinkBuffer.drop (s.thinkBuffer.length
                        - pendingTagSuffix s.thinkBuffer thinkingStartTag) }
                    (by simp; omega) ⟨htool, hmsg, by simp, by simp, by simp⟩
                  refine ⟨?_, hrec.2⟩
                  rw [scanList_append]
                  simpa [scanList, scanStep, scanOf, hmsg, hss] using hrec.1
          · -- a complete <thinking> tag was found
            rw [spliceGo]
            simp only [if_neg hbuf, if_neg hpend, if_pos hthink, hfind]
            by_cases hbefore : s.thinkBuffer.take p = []
            · simp only [if_pos hbefore]
              by_cases hss : s.contentBlockStartSent = true
              · simp only [if_pos hss]
                have hrec := ih { s with
                    contentBlockIndex := s.contentBlockIndex + 1,
                    contentBlockStartSent := true, contentBlockStarted := true,
                    contentBlockStopSent := false, inThinkBlock := true,
                    pendingStartTagChars := 0,
                    thinkBuffer := s.thinkBuffer.drop (p + thinkingStartTag.length) }
                  (by simp; omega) ⟨htool, hmsg, by simp, by simp, by simp⟩
                refine ⟨?_, hrec.2⟩
                rw [scanList_append]
                simpa [scanList, scanStep, scanOf, hmsg, hss] using hrec.1
              · simp only [if_neg hss]
                have hrec := ih { s with
                    contentBlockIndex := s.contentBlockIndex + 1,
                    contentBlockStartSent := true, contentBlockStarted := true,
                    contentBlockStopSent := false, inThinkBlock := true,
                    pendingStartTagChars := 0,
                    thinkBuffer := s.thinkBuffer.drop (p + thinkingStartTag.length) }
                  (by simp; omega) ⟨htool, hmsg, by simp, by simp, by simp⟩
                refine ⟨?_, hrec.2⟩
                rw [scanList_append]
                simpa [scanList, scanStep, scanOf, hmsg, hss] using hrec.1
            · simp only [if_neg hbefore]
              by_cases hss : s.contentBlockStartSent = true
              · simp only [if_pos hss]
                have hrec := ih { s with
                    contentBlockIndex := s.contentBlockIndex + 1,
                    contentBlockStartSent := true, contentBlockStarted := true,
                    contentBlockStopSent := false, inThinkBlock := true,
                    pendingStartTagChars := 0,
                    responseBuffer := s.responseBuffer ++ [s.thinkBuffer.take p],
                    thinkBuffer := s.thinkBuffer.drop (p + thinkingStartTag.length) }
                  (by simp; omega) ⟨htool, hmsg, by simp, by simp, by simp⟩
                refine ⟨?_, hrec.2⟩
                rw [scanList_append]
                simpa [scanList, scanStep, scanOf, hmsg, hss] using hrec.1
              · simp only [if_neg hss]
                have hrec := ih { s with
                    contentBlockIndex := s.contentBlockIndex + 1 + 1,
                    contentBlockStartSent := true, contentBlockStarted := true,
                    contentBlockStopSent := false, inThinkBlock := true,
                    pendingStartTagChars := 0,
                    responseBuffer := s.responseBuffer ++ [s.thinkBuffer.take p],
                    thinkBuffer := s.thinkBuffer.drop (p + thinkingStartTag.length) }
                  (by simp; omega) ⟨htool, hmsg, by simp, by simp, by simp⟩
                refine ⟨?_, ?_⟩
                · rw [scanList_append]
                  simpa [scanList, scanStep, scanOf, hmsg, hss] using hrec.1
                · exact hrec.2
        · rcases Option.eq_none_or_eq_some (findSub s.thinkBuffer thinkingEndTag)
            with hfind | ⟨q, hfind⟩
          · by_cases hemit : s.thinkBuffer.length
                - pendingTagSuffix s.thinkBuffer thinkingEndTag = 0
            · rw [spliceGo]
              simp only [if_neg hbuf, if_neg hpend, if_neg hthink, hfind, if_pos hemit]
              exact ⟨by simp [scanList], htool, hmsg, hstop, hsb, hib⟩
            · -- emit a thinking chunk
              rw [spliceGo]
              simp only [if_neg hbuf, if_neg hpend, if_neg hthink, hfind, if_neg hemit]
              have hrec := ih { s with
                  thinkBuffer := s.thinkBuffer.drop (s.thinkBuffer.length
                    - pendingTagSuffix s.thinkBuffer thinkingEndTag) }
                (by simp; omega) ⟨htool, hmsg, hstop, hsb, hib⟩
              refine ⟨?_, hrec.2⟩
              rw [scanList_append]
              have hchunk : s.thinkBuffer.take (s.thinkBuffer.length
                  - pendingTagSuffix s.thinkBuffer thinkingEndTag) ≠ [] := by
                simp [List.take_eq_nil_iff, hbuf, hemit]
              simp only [if_neg hchunk]
              simpa [scanList, scanStep, scanOf, hmsg] using hrec.1
          · -- a complete </thinking> tag was found
            rw [spliceGo]
            simp only [if_neg hbuf, if_neg hpend, if_neg hthink, hfind]
            have hssOfThink : s.contentBlockStartSent = true := by
              apply hib; revert hthink; cases s.inThinkBlock <;> simp
            have hstarted : s.contentBlockStarted = true := hsb hssOfThink
            have hrec := ih { s with
                contentBlockStopSent := true, contentBlockStartSent := false,
                inThinkBlock := false,
                thinkBuffer := s.thinkBuffer.drop (q + thinkingEndTag.length) }
              (by simp; omega) ⟨htool, hmsg, by simp [hstarted], by simp, by simp⟩
            refine ⟨?_, hrec.2⟩
            by_cases hchunk : s.thinkBuffer.take q = []
            · simp only [if_pos hchunk]
              rw [scanList_append]
              simpa [scanList, scanStep, scanOf, hmsg, hssOfThink] using hrec.1
            · simp only [if_neg hchunk]
              rw [scanList_append]
              simpa [scanList, scanStep, scanOf, hmsg, hssOfThink] using hrec.1

theorem handleEvent_scan (s : HandlerState) (c : Str) (hinv : FlagsInv s) :
    scanList (scanOf s) (handleEvent s (.assistantResponse c)).1
      = some (scanOf (handleEvent s (.assistantResponse c)).2) ∧
    FlagsInv (handleEvent s (.assistantResponse c)).2 := by
  obtain ⟨htool, hmsg, hstop, hsb, hib⟩ := hinv
  by_cases hc : c = []
  · subst hc
    have hstep : handleEvent s (.assistantResponse []) = ([], s) := by
      simp [handleEvent, htool]
    rw [hstep]
    exact ⟨rfl, htool, hmsg, hstop, hsb, hib⟩
  · have hstep : handleEvent s (.assistantResponse c)
        = spliceLoop { s with thinkBuffer := s.thinkBuffer ++ c } := by
      simp [handleEvent, htool, hc]
    rw [hstep, spliceLoop]
    exact spliceGo_scan
      (({ s with thinkBuffer := s.thinkBuffer ++ c } : HandlerState).thinkBuffer.length + 1)
      { s with thinkBuffer := s.thinkBuffer ++ c }
      (Nat.lt_succ_self _) ⟨htool, hmsg, hstop, hsb, hib⟩

theorem runEvents_scan (chunks : List Str) : ∀ (s : HandlerState), FlagsInv s →
    scanList (scanOf s) (runEvents s (chunks.map .assistantResponse)).1
      = some (scanOf (runEvents s (chunks.map .assistantResponse)).2) ∧
    FlagsInv (runEvents s (chunks.map .assistantResponse)).2 := by
  induction chunks with
  | nil => intro s hinv; exact ⟨rfl, hinv⟩
  | cons c rest ih =>
    intro s hinv
    obtain ⟨h1, h2⟩ := handleEvent_scan s c hinv
    obtain ⟨h3, h4⟩ := ih (handleEvent s (.assistantResponse c)).2 h2
    refine ⟨?_, by simpa [runEvents] using h4⟩
    simp only [List.map_cons, runEvents, scanList_append, h1]
    exact h3

theorem scanList_finalize (s : HandlerState) (hinv : FlagsInv s) :
    ∃ σ, scanList (scanOf s) (finalize s) = some σ ∧ σ.openBlock = none := by
  obtain ⟨htool, hmsg, hstop, hsb, hib⟩ := hinv
  rw [finalize]
  by_cases hss : s.contentBlockStartSent = true
  · have hstarted := hsb hss
    have hcond : (s.contentBlockStarted ∧ s.contentBlockStopSent = false) := by
      simp [hstarted, hstop, hss]
    rw [if_pos hcond]
    refine ⟨⟨s.messageStartSent, none, s.contentBlockIndex + 1⟩, ?_, rfl⟩
    simp [scanList, scanStep, scanOf, hss]
  · have hcond : ¬ (s.contentBlockStarted ∧ s.contentBlockStopSent = false) := by
      intro ⟨h1, h2⟩
      rw [hstop] at h2
      simp [h1] at h2
      exact hss h2
    rw [if_neg hcond]
    refine ⟨⟨s.messageStartSent, none, s.contentBlockIndex + 1⟩, ?_, rfl⟩
    simp [scanList, scanStep, scanOf, hss]

theorem getLast_append_finalize (a : List SSERecord) (s : HandlerState) :
    (a ++ finalize s).getLast? = some .messageStop := by
  have h1 : finalize s = (finalize s).dropLast ++ [.messageStop] := by
    rw [finalize]
    split <;> rfl
  rw [h1, ← List.append_assoc, List.getLast?_concat]

/-- C1 (amended): for a stream whose first upstream event is
`initial-response` and whose remaining events are all
`assistantResponseEvent`s, the emitted record sequence satisfies the full
ordering contract: `message_start` precedes every content-block record,
block starts/stops alternate with matching indices `0, 1, 2, …` (exactly
one stop per start, every block closed), and `message_stop` is last. -/
theorem C1_stream_wellformed (model messageId : Str) (inputTokens : Nat)
    (cid : Option Str) (chunks : List Str) :
    sseWellFormed (handleStream model inputTokens messageId
      (.initialResponse cid :: chunks.map .assistantResponse)) = true := by
  have hinit : handleEvent (initState model inputTokens messageId) (.initialResponse cid)
      = ([.messageStart messageId model inputTokens, .ping],
         { initState model inputTokens messageId with
             conversationId := some (cid.getD messageId), messageStartSent := true }) := by
    simp [handleEvent, initState]
  have h01 : (handleEvent (initState model inputTokens messageId)
      (.initialResponse cid)).1 = [.messageStart messageId model inputTokens, .ping] := by
    rw [hinit]
  have h02 : FlagsInv (handleEvent (initState model inputTokens messageId)
      (.initialResponse cid)).2 := by
    rw [hinit]
    exact ⟨rfl, rfl, rfl, by simp [initState], by simp [initState]⟩
  have h03 : scanList initScan [SSERecord.messageStart messageId model inputTokens, .ping]
      = some (scanOf (handleEvent (initState model inputTokens messageId)
          (.initialResponse cid)).2) := by
    rw [hinit]
    simp [scanList, scanStep, scanOf, initScan, initState]
  obtain ⟨hscan, hinv2⟩ := runEvents_scan chunks
    (handleEvent (initState model inputTokens messageId) (.initialResponse cid)).2 h02
  obtain ⟨σf, hfin, hopen⟩ := scanList_finalize _ hinv2
  rw [handleStream]
  simp only [runEvents, h01, sseWellFormed, scanList_append, h03, Option.some_bind,
    hscan, hfin, getLast_append_finalize]
  simp [hopen]

/-- C1 counterexample: an upstream sequence that interleaves a
`toolUseEvent` into an open thinking segment makes the handler emit two
`content_block_stop` records for index 1 (one when the tool block is
closed by text, one from the dangling tool-stop), violating "exactly one
`content_block_stop` with index `i`" even though an `initial-response`
event came first. -/
theorem C1_counterexample :
    c1OrderingAsStated (handleStream ("m".toList) 5 ("mid".toList)
      [.initialResponse none,
       .assistantResponse ("<thinking>a".toList),
       .toolUse (some ("t1".toList)) (some ("n".toList)) none false,
       .assistantResponse ("b</thinking>".toList),
       .toolUse none none none true]) = false := by
  decide

/-- Witness that the ordering checker does accept well-formed streams
(sanity instance of `C1_stream_wellformed` at concrete input). -/
theorem C1_stream_wellformed_witness :
    sseWellFormed (handleStream ("m".toList) 5 ("mid".toList)
      (.initialResponse none ::
        (["hi<thinking>x</thinking>y".toList].map .assistantResponse))) = true :=
  C1_stream_wellformed ("m".toList) ("mid".toList) 5 none
    ["hi<thinking>x</thinking>y".toList]

/-! ## `token_manager.py`: token data and the per-account refresh

The per-account `asyncio.Lock` in `TokenManager.get_token` makes the body
of `get_token` atomic, so a set of concurrent callers for one account is
modelled as consecutive `getTokenStep` executions in some order. -/

/-- `TokenData` (token_manager.py, lines 20-78).  `expiresAt` is the
parsed ISO-8601 timestamp in epoch seconds; `none` models an absent or
unparsable `expiresAt` string (either makes `is_expired` return true). -/
structure TokenData where
  accessToken : Str
  refreshToken : Str
  expiresAt : Option Int
  clientIdHash : Str
  deriving DecidableEq, Repr

/-- `TokenData.is_expired(buffer_minutes=5)` (lines 33-55): true when the
token expires within `buffer_minutes` minutes of `now` (strict `<`). -/
def isExpired (t : TokenData) (now : Int) (bufferMinutes : Int) : Bool :=
  match t.expiresAt with
  | none => true
  | some e => decide (e - now < bufferMinutes * 60)

/-- The OIDC refresh endpoint's reply `{accessToken, expiresIn,
refreshToken?}` (lines 235-249). -/
structure RefreshResult where
  accessToken : Str
  expiresIn : Int
  refreshToken : Option Str
  deriving Repr

/-- Shared state touched by `get_token`: the on-disk token blob for the
account and the number of OIDC refresh POSTs issued so far. -/
structure TokenSysState where
  fileToken : TokenData
  refreshCount : Nat
  deriving Repr

/-- `TokenManager._refresh_token` (lines 199-260): POST the OIDC refresh
(the `oidc` map gives the reply of the k-th POST), overlay `accessToken`,
computed `expiresAt = now + expiresIn`, and the optional new
`refreshToken` onto the existing blob, and write it back to the file. -/
def refreshTokenStep (oidc : Nat → RefreshResult) (now : Int) (st : TokenSysState) :
    TokenData × TokenSysState :=
  let res := oidc st.refreshCount
  let newTok : TokenData :=
    { accessToken := res.accessToken
      refreshToken := res.refreshToken.getD st.fileToken.refreshToken
      expiresAt := some (now + res.expiresIn)
      clientIdHash := st.fileToken.clientIdHash }
  (newTok, { fileToken := newTok, refreshCount := st.refreshCount + 1 })

/-- One serialized execution of `TokenManager.get_token` (lines 108-134):
re-read the token from the file, then refresh iff `force_refresh` or the
token is expired (5-minute buffer). -/
def getTokenStep (oidc : Nat → RefreshResult) (now : Int) (forceRefresh : Bool)
    (st : TokenSysState) : TokenData × TokenSysState :=
  let token := st.fileToken
  if forceRefresh || isExpired token now 5 then refreshTokenStep oidc now st
  else (token, st)

/-- Serialized execution of a batch of `get_token` callers (the order in
which the per-account lock admits them). -/
def runGetTokenCalls (oidc : Nat → RefreshResult) (now : Int) :
    List Bool → TokenSysState → List TokenData × TokenSysState
  | [], st => ([], st)
  | f :: fs, st =>
    ((getTokenStep oidc now f st).1
        :: (runGetTokenCalls oidc now fs (getTokenStep oidc now f st).2).1,
     (runGetTokenCalls oidc now fs (getTokenStep oidc now f st).2).2)

/-- C4 counterexample: two concurrent `get_token(force_refresh=True)`
callers on a fresh token issue two OIDC refresh POSTs, not one — `force`
short-circuits the expiry re-evaluation, so the blocked caller refreshes
again after the first one finishes. -/
theorem C4_counterexample :
    (runGetTokenCalls (fun _ => ⟨"new".toList, 3600, none⟩) 0 [true, true]
      ⟨⟨"old".toList, "r".toList, some 100000, "h".toList⟩, 0⟩).2.refreshCount ≠ 1 := by
  decide

/-- C4 (amended): the per-account lock serializes callers, so `n`
concurrent `force_refresh=True` callers perform `n` OIDC refresh POSTs,
one after the other (never concurrently), each caller receiving its own
refresh's token; a `force_refresh=False` caller that finds a token more
than 5 minutes from expiry skips the refresh entirely. -/
theorem C4_serialized_refreshes (oidc : Nat → RefreshResult) (now : Int)
    (st : TokenSysState) (n : Nat) (e : Int)
    (he : st.fileToken.expiresAt = some e) (hfresh : 300 ≤ e - now) :
    (runGetTokenCalls oidc now (List.replicate n true) st).2.refreshCount
      = st.refreshCount + n ∧
    getTokenStep oidc now false st = (st.fileToken, st) := by
  constructor
  · clear he hfresh
    induction n generalizing st with
    | zero => simp [runGetTokenCalls]
    | succ n ih =>
      simp only [List.replicate_succ, runGetTokenCalls, getTokenStep, Bool.true_or,
        if_true, refreshTokenStep]
      rw [ih]
      simp
      omega
  · rw [getTokenStep]
    have : isExpired st.fileToken now 5 = false := by
      rw [isExpired, he]
      simp
      omega
    simp [this]

/-- Witness for `C4_serialized_refreshes` at a concrete instance. -/
theorem C4_serialized_refreshes_witness :
    (runGetTokenCalls (fun _ => ⟨"new".toList, 3600, none⟩) 0 (List.replicate 10 true)
      ⟨⟨"old".toList, "r".toList, some 100000, "h".toList⟩, 0⟩).2.refreshCount = 0 + 10 ∧
    getTokenStep (fun _ => ⟨"new".toList, 3600, none⟩) 0 false
      ⟨⟨"old".toList, "r".toList, some 100000, "h".toList⟩, 0⟩
      = (⟨"old".toList, "r".toList, some 100000, "h".toList⟩,
         ⟨⟨"old".toList, "r".toList, some 100000, "h".toList⟩, 0⟩) :=
  C4_serialized_refreshes (fun _ => ⟨"new".toList, 3600, none⟩) 0
    ⟨⟨"old".toList, "r".toList, some 100000, "h".toList⟩, 0⟩ 10 100000
    rfl (by omega)

/-- C8 (confirmed): a `force_refresh=False` call on a token whose
`expires_at` lies more than 5 minutes in the future returns the stored
blob unchanged and triggers no refresh, so two successive calls yield the
identical `access_token`. -/
theorem C8_getToken_idempotent (oidc : Nat → RefreshResult) (now : Int)
    (st : TokenSysState) (e : Int)
    (he : st.fileToken.expiresAt = some e) (hfresh : 300 < e - now) :
    getTokenStep oidc now false st = (st.fileToken, st) ∧
    (getTokenStep oidc now false (getTokenStep oidc now false st).2).1.accessToken
      = (getTokenStep oidc now false st).1.accessToken := by
  have hexp : isExpired st.fileToken now 5 = false := by
    rw [isExpired, he]
    simp
    omega
  have h1 : getTokenStep oidc now false st = (st.fileToken, st) := by
    rw [getTokenStep]
    simp [hexp]
  exact ⟨h1, by simp [h1]⟩

/-- Witness for `C8_getToken_idempotent` at a concrete instance. -/
theorem C8_getToken_idempotent_witness :
    getTokenStep (fun _ => ⟨"new".toList, 3600, none⟩) 0 false
      ⟨⟨"tok".toList, "r".toList, some 400, "h".toList⟩, 0⟩
      = (⟨"tok".toList, "r".toList, some 400, "h".toList⟩,
         ⟨⟨"tok".toList, "r".toList, some 400, "h".toList⟩, 0⟩) ∧
    (getTokenStep (fun _ => ⟨"new".toList, 3600, none⟩) 0 false
      (getTokenStep (fun _ => ⟨"new".toList, 3600, none⟩) 0 false
        ⟨⟨"tok".toList, "r".toList, some 400, "h".toList⟩, 0⟩).2).1.accessToken
      = (getTokenStep (fun _ => ⟨"new".toList, 3600, none⟩) 0 false
        ⟨⟨"tok".toList, "r".toList, some 400, "h".toList⟩, 0⟩).1.accessToken :=
  C8_getToken_idempotent (fun _ => ⟨"new".toList, 3600, none⟩) 0
    ⟨⟨"tok".toList, "r".toList, some 400, "h".toList⟩, 0⟩ 400 rfl (by omega)

/-! ## A model of `payload.decode("utf-8")` and `json.loads`

`response_parser.parse_binary_events` decodes each frame payload as UTF-8
and parses it with `json.loads`.  The JSON subset modelled here covers the
values the gateway's payloads use (objects whose values are strings,
booleans, null, or nested objects; `\uXXXX` escapes and numbers are out of
the modelled subset and make the parse fail, which the caller treats like
any other undecodable payload). -/

def utf8Cont (b : Nat) : Bool := 0x80 ≤ b ∧ b < 0xC0

/-- Standard UTF-8 decoding of a byte list (surrogate/overlong validation
omitted; the decoded scalar is built with `Char.ofNat`). -/
def utf8Decode : List Nat → Option Str
  | [] => some []
  | b :: rest =>
    if b < 0x80 then (utf8Decode rest).map (Char.ofNat b :: ·)
    else if 0xC2 ≤ b ∧ b ≤ 0xDF then
      match rest with
      | c1 :: r =>
        if utf8Cont c1 then
          (utf8Decode r).map (Char.ofNat ((b - 0xC0) * 64 + (c1 - 0x80)) :: ·)
        else none
      | [] => none
    else if 0xE0 ≤ b ∧ b ≤ 0xEF then
      match rest with
      | c1 :: c2 :: r =>
        if utf8Cont c1 ∧ utf8Cont c2 then
          (utf8Decode r).map
            (Char.ofNat ((b - 0xE0) * 4096 + (c1 - 0x80) * 64 + (c2 - 0x80)) :: ·)
        else none
      | _ => none
    else if 0xF0 ≤ b ∧ b ≤ 0xF4 then
      match rest with
      | c1 :: c2 :: c3 :: r =>
        if utf8Cont c1 ∧ utf8Cont c2 ∧ utf8Cont c3 then
          (utf8Decode r).map
            (Char.ofNat ((b - 0xF0) * 262144 + (c1 - 0x80) * 4096
              + (c2 - 0x80) * 64 + (c3 - 0x80)) :: ·)
        else none
      | _ => none
    else none

inductive JsonValue
  | str (s : Str)
  | bool (b : Bool)
  | null
  | obj (fields : List (Str × JsonValue))
  deriving Repr, BEq

def skipWs (cs : Str) : Str :=
  cs.dropWhile fun c => c = ' ' ∨ c = '\n' ∨ c = '\t' ∨ c = '\r'

/-- JSON string body after the opening quote. -/
def parseJString : Nat → Str → Option (Str × Str)
  | 0, _ => none
  | fuel + 1, cs =>
    match cs with
    | [] => none
    | '"' :: rest => some ([], rest)
    | '\\' :: e :: rest =>
      let c? : Option Char :=
        if e = '"' then some '"'
        else if e = '\\' then some '\\'
        else if e = '/' then some '/'
        else if e = 'n' then some '\n'
        else if e = 't' then some '\t'
        else if e = 'r' then some '\r'
        else if e = 'b' then some (Char.ofNat 8)
        else if e = 'f' then some (Char.ofNat 12)
        else none
      match c? with
      | none => none
      | some c => (parseJString fuel rest).map fun p => (c :: p.1, p.2)
    | c :: rest =>
      if c = '\\' then none
      else (parseJString fuel rest).map fun p => (c :: p.1, p.2)

mutual

def parseJValue : Nat → Str → Option (JsonValue × Str)
  | 0, _ => none
  | fuel + 1, cs =>
    match skipWs cs with
    | '"' :: rest => (parseJString (fuel + 1) rest).map fun p => (.str p.1, p.2)
    | 't' :: 'r' :: 'u' :: 'e' :: rest => some (.bool true, rest)
    | 'f' :: 'a' :: 'l' :: 's' :: 'e' :: rest => some (.bool false, rest)
    | 'n' :: 'u' :: 'l' :: 'l' :: rest => some (.null, rest)
    | '{' :: rest => (parseJFields fuel rest).map fun p => (.obj p.1, p.2)
    | _ => none

def parseJFields : Nat → Str → Option (List (Str × JsonValue) × Str)
  | 0, _ => none
  | fuel + 1, cs =>
    match skipWs cs with
    | '}' :: rest => some ([], rest)
    | '"' :: rest =>
      match parseJString (fuel + 1) rest with
      | none => none
      | some (key, r1) =>
        match skipWs r1 with
        | ':' :: r2 =>
          match parseJValue fuel r2 with
          | none => none
          | some (v, r3) =>
            match skipWs r3 with
            | ',' :: r4 => (parseJFields fuel r4).map fun p => ((key, v) :: p.1, p.2)
            | '}' :: r4 => some ([(key, v)], r4)
            | _ => none
        | _ => none
    | _ => none

end

/-- `json.loads`: parse a full document (trailing whitespace only). -/
def jsonParse (cs : Str) : Option JsonValue :=
  match parseJValue (cs.length + 1) cs with
  | some (v, rest) => if skipWs rest = [] then some v else none
  | none => none

/-- Field access on a parsed object, duplicate keys resolved last-wins as
in Python dicts. -/
def jsonGet (fields : List (Str × JsonValue)) (key : Str) : Option JsonValue :=
  ((fields.filter fun f => f.1 == key).getLast?).map (·.2)

/-! ## `response_parser.py`: the bulk Event-Stream decoder and collector -/

/-- `AssistantResponseEvent` (response_parser.py, lines 13-21): the fields
read from the decoded payload object (string fields default `""`; `input`
stays `None` when absent; `stop` defaults `False`). -/
structure AssistantResponseEvent where
  content : Str
  input : Option Str
  name : Str
  toolUseId : Str
  stop : Bool
  deriving DecidableEq, Repr

def assistantEventOfJson (fields : List (Str × JsonValue)) : AssistantResponseEvent :=
  { content := match jsonGet fields ("content".toList) with
      | some (.str s) => s
      | _ => []
    input := match jsonGet fields ("input".toList) with
      | some (.str s) => some s
      | _ => none
    name := match jsonGet fields ("name".toList) with
      | some (.str s) => s
      | _ => []
    toolUseId := match jsonGet fields ("toolUseId".toList) with
      | some (.str s) => s
      | _ => []
    stop := match jsonGet fields ("stop".toList) with
      | some (.bool b) => b
      | _ => false }

/-- One `SSEEvent` produced by the batch decoder, carrying exactly the
fields `parse_binary_events` / `convert_assistant_event_to_sse` write into
the event's `data` dict (the constant `"stop_sequence": null` of
`message_delta` is implicit). -/
inductive ParsedEvent
  | contentBlockDeltaText (index : Nat) (text : Str)
  | contentBlockDeltaInput (index : Nat) (id name partialJson : Str)
  | contentBlockStartTool (index : Nat) (id name : Str)
  | contentBlockStop (index : Nat)
  | messageDelta (stopReason : Str) (outputTokens : Nat)
  deriving DecidableEq, Repr

/-- `convert_assistant_event_to_sse` (lines 133-199); `none` is the empty
event that the caller drops. -/
def convertAssistantEventToSse (evt : AssistantResponseEvent) : Option ParsedEvent :=
  if evt.content ≠ [] then
    some (.contentBlockDeltaText 0 evt.content)
  else if evt.toolUseId ≠ [] ∧ evt.name ≠ [] ∧ evt.stop = false then
    match evt.input with
    | none => some (.contentBlockStartTool 1 evt.toolUseId evt.name)
    | some inp => some (.contentBlockDeltaInput 1 evt.toolUseId evt.name inp)
  else if evt.stop then some (.contentBlockStop 1)
  else none

/-- The per-payload part of `parse_binary_events` (lines 81-110): UTF-8
decode, strip a possible `"vent"` prefix, JSON-parse, convert; a tool-use
stop additionally appends a `message_delta(stop_reason="tool_use")`.
Undecodable or non-object payloads contribute nothing. -/
def eventsOfPayload (payload : List Nat) : List ParsedEvent :=
  match utf8Decode payload with
  | none => []
  | some s0 =>
    let s1 := if ("vent".toList).isPrefixOf s0 then s0.drop 4 else s0
    match jsonParse s1 with
    | some (.obj fields) =>
      let evt := assistantEventOfJson fields
      (match convertAssistantEventToSse evt with
       | some e => [e]
       | none => [])
      ++ (if evt.toolUseId ≠ [] ∧ evt.name ≠ [] ∧ evt.stop then
            [ParsedEvent.messageDelta ("tool_use".toList) 0]
          else [])
    | _ => []

/-- Big-endian 32-bit read at `off` (`struct.unpack_from(">II", …)`);
reads past the end give 0, but the caller's length guard prevents that. -/
def be32At (data : List Nat) (off : Nat) : Nat :=
  data.getD off 0 * 16777216 + data.getD (off + 1) 0 * 65536
    + data.getD (off + 2) 0 * 256 + data.getD (off + 3) 0

/-- The frame loop of `parse_binary_events` (lines 42-115), expressed on
the remaining suffix of the input instead of an absolute `offset` (the
Python loop only ever reads `data[offset:]`).  Per iteration: need 12
bytes for the prelude; stop when the declared frame overruns the input or
the payload length is negative; otherwise decode the payload slice and
advance by `total_len`. -/
def parseBinaryEvents (data : List Nat) : List ParsedEvent :=
  if h12 : 12 ≤ data.length then
    let totalLen := be32At data 0
    let headerLen := be32At data 4
    if hover : data.length < totalLen then []
    else if hneg : (totalLen : Int) - headerLen - 16 < 0 then []
    else
      eventsOfPayload ((data.drop (12 + headerLen)).take (totalLen - headerLen - 16))
        ++ parseBinaryEvents (data.drop totalLen)
  else []
termination_by data.length
decreasing_by
  simp only [List.length_drop]
  omega

/-! ### C5: framing round-trip -/

/-- Big-endian 32-bit encoding. -/
def be32 (n : Nat) : List Nat :=
  [n / 16777216 % 256, n / 65536 % 256, n / 256 % 256, n % 256]

/-- An AWS Event-Stream frame: headers, payload, and the two CRC words
(arbitrary 4-byte strings — the decoder skips them). -/
structure RawFrame where
  headers : List Nat
  payload : List Nat
  preludeCrc : List Nat
  msgCrc : List Nat

/-- `TotLen | HdrLen | PrelCRC | Headers | Payload | MsgCRC` with
`TotLen = 16 + HdrLen + PayloadLen`. -/
def frameBytes (f : RawFrame) : List Nat :=
  be32 (16 + f.headers.length + f.payload.length) ++ be32 f.headers.length
    ++ f.preludeCrc ++ f.headers ++ f.payload ++ f.msgCrc

def WellFormedFrame (f : RawFrame) : Prop :=
  f.preludeCrc.length = 4 ∧ f.msgCrc.length = 4 ∧
    16 + f.headers.length + f.payload.length < 4294967296

instance (f : RawFrame) : Decidable (WellFormedFrame f) :=
  inferInstanceAs (Decidable (_ ∧ _ ∧ _))

theorem frameBytes_length (f : RawFrame) (hf : WellFormedFrame f) :
    (frameBytes f).length = 16 + f.headers.length + f.payload.length := by
  simp [frameBytes, be32, hf.1, hf.2.1]
  omega

theorem be32At_zero (n : Nat) (rest : List Nat) (h : n < 4294967296) :
    be32At (be32 n ++ rest) 0 = n := by
  simp [be32At, be32, List.getD]
  omega

theorem be32At_four (n m : Nat) (rest : List Nat) (h : m < 4294967296) :
    be32At (be32 n ++ (be32 m ++ rest)) 4 = m := by
  simp [be32At, be32, List.getD]
  omega

theorem parseBinaryEvents_cons (f : RawFrame) (rest : List Nat)
    (hf : WellFormedFrame f) :
    parseBinaryEvents (frameBytes f ++ rest)
      = eventsOfPayload f.payload ++ parseBinaryEvents rest := by
  obtain ⟨hc1, hc2, hsize⟩ := hf
  have hfb : (frameBytes f).length = 16 + f.headers.length + f.payload.length :=
    frameBytes_length f ⟨hc1, hc2, hsize⟩
  have hassoc : frameBytes f ++ rest
      = be32 (16 + f.headers.length + f.payload.length) ++ (be32 f.headers.length
        ++ (f.preludeCrc ++ (f.headers ++ (f.payload ++ (f.msgCrc ++ rest))))) := by
    simp [frameBytes, List.append_assoc]
  have htot : be32At (frameBytes f ++ rest) 0
      = 16 + f.headers.length + f.payload.length := by
    rw [hassoc]; exact be32At_zero _ _ hsize
  have hhd : be32At (frameBytes f ++ rest) 4 = f.headers.length := by
    rw [hassoc]; exact be32At_four _ _ _ (by omega)
  have hpre12 : (be32 (16 + f.headers.length + f.payload.length)
      ++ be32 f.headers.length ++ f.preludeCrc).length = 12 := by
    simp [be32, hc1]
  have hdrop : ((frameBytes f ++ rest).drop (12 + f.headers.length)).take
      (16 + f.headers.length + f.payload.length - f.headers.length - 16)
      = f.payload := by
    have hregroup : frameBytes f ++ rest
        = (be32 (16 + f.headers.length + f.payload.length) ++ be32 f.headers.length
            ++ f.preludeCrc) ++ (f.headers ++ (f.payload ++ (f.msgCrc ++ rest))) := by
      simp [frameBytes, List.append_assoc]
    rw [hregroup, show (12 : Nat) + f.headers.length
        = (be32 (16 + f.headers.length + f.payload.length) ++ be32 f.headers.length
            ++ f.preludeCrc).length + f.headers.length from by rw [hpre12],
      List.drop_append, show (16 + f.headers.length + f.payload.length
        - f.headers.length - 16 : Nat) = f.payload.length from by omega]
    rw [show f.headers.length = f.headers.length + 0 from rfl, List.drop_append,
      List.drop_zero, List.take_left]
  have hlast : (frameBytes f ++ rest).drop (16 + f.headers.length + f.payload.length)
      = rest := by
    rw [← hfb, List.drop_left]
  rw [parseBinaryEvents]
  rw [dif_pos (by simp [hfb]; omega)]
  simp only [htot, hhd]
  rw [dif_neg (by simp only [List.length_append, hfb, not_lt]; omega),
    dif_neg (by push_cast; omega), hdrop, hlast]

theorem parseBinaryEvents_truncated (tail : List Nat) (f : RawFrame)
    (hf : WellFormedFrame f) (hpre : tail <+: frameBytes f)
    (hne : tail ≠ frameBytes f) :
    parseBinaryEvents tail = [] := by
  rw [parseBinaryEvents]
  by_cases h12 : 12 ≤ tail.length
  · rw [dif_pos h12]
    have hlt : tail.length < (frameBytes f).length :=
      lt_of_le_of_ne hpre.length_le fun heq => hne (hpre.eq_of_length heq)
    obtain ⟨t, ht⟩ := hpre
    have htot : be32At tail 0 = 16 + f.headers.length + f.payload.length := by
      have h0 : be32At (tail ++ t) 0 = 16 + f.headers.length + f.payload.length := by
        rw [ht]
        have hassoc : frameBytes f
            = be32 (16 + f.headers.length + f.payload.length) ++ (be32 f.headers.length
              ++ (f.preludeCrc ++ (f.headers ++ (f.payload ++ f.msgCrc)))) := by
          simp [frameBytes, List.append_assoc]
        rw [hassoc]
        exact be32At_zero _ _ hf.2.2
      rw [← h0]
      simp only [be32At]
      rw [List.getD_append _ _ _ _ (by omega), List.getD_append _ _ _ _ (by omega),
        List.getD_append _ _ _ _ (by omega), List.getD_append _ _ _ _ (by omega)]
    rw [htot,
      dif_pos (by rw [frameBytes_length f hf] at hlt; omega)]
  · rw [dif_neg h12]

theorem parseBinaryEvents_short (data : List Nat) (h : data.length < 12) :
    parseBinaryEvents data = [] := by
  rw [parseBinaryEvents, dif_neg (by omega)]

theorem parseBinaryEvents_frames (frames : List RawFrame) (tail : List Nat)
    (hwf : ∀ f ∈ frames, WellFormedFrame f)
    (htail : parseBinaryEvents tail = []) :
    parseBinaryEvents ((frames.map frameBytes).flatten ++ tail)
      = (frames.map (fun f => eventsOfPayload f.payload)).flatten := by
  induction frames with
  | nil => simpa using htail
  | cons f fs ih =>
    simp only [List.map_cons, List.flatten_cons, List.append_assoc]
    rw [parseBinaryEvents_cons f _ (hwf f (by simp)),
      ih (fun x hx => hwf x (by simp [hx]))]

/-- Sample frame holding the JSON payload of an empty content delta. -/
def c5Frame0 : RawFrame :=
  { headers := [], payload := ("\x7b\"content\":\"\"\x7d".toList).map Char.toNat,
    preludeCrc := [0, 0, 0, 0], msgCrc := [0, 0, 0, 0] }

/-- Sample frame holding the JSON payload of a "Hi" content delta. -/
def c5FrameHi : RawFrame :=
  { headers := [], payload := ("\x7b\"content\":\"Hi\"\x7d".toList).map Char.toNat,
    preludeCrc := [0, 0, 0, 0], msgCrc := [0, 0, 0, 0] }

/-- C5 (amended): a stream of well-formed frames, each of whose payloads
decodes to exactly one event, followed by a strict prefix of a further
well-formed frame, parses to the concatenation of the per-frame events —
exactly one event per frame, and the truncated tail contributes nothing. -/
theorem C5_decoder_roundtrip (frames : List RawFrame) (g : RawFrame) (tail : List Nat)
    (hwf : ∀ f ∈ frames, WellFormedFrame f)
    (hone : ∀ f ∈ frames, (eventsOfPayload f.payload).length = 1)
    (hg : WellFormedFrame g) (hpre : tail <+: frameBytes g)
    (hne : tail ≠ frameBytes g) :
    parseBinaryEvents ((frames.map frameBytes).flatten ++ tail)
      = (frames.map (fun f => eventsOfPayload f.payload)).flatten
    ∧ (parseBinaryEvents ((frames.map frameBytes).flatten ++ tail)).length
        = frames.length := by
  have htail : parseBinaryEvents tail = [] :=
    parseBinaryEvents_truncated tail g hg hpre hne
  have heq := parseBinaryEvents_frames frames tail hwf htail
  refine ⟨heq, ?_⟩
  rw [heq]
  clear heq htail hwf
  induction frames with
  | nil => rfl
  | cons f fs ih =>
    simp only [List.map_cons, List.flatten_cons, List.length_append, List.length_cons]
    rw [hone f (by simp), ih (fun x hx => hone x (by simp [hx]))]
    omega

/-- C5 as stated fails: a well-formed frame whose payload is the JSON
text of an empty content delta decodes to zero events, not one, so one
frame plus a three-byte truncated tail yields zero events instead of one. -/
theorem C5_counterexample :
    WellFormedFrame c5Frame0
    ∧ [0, 0, 0] <+: frameBytes c5Frame0
    ∧ [0, 0, 0] ≠ frameBytes c5Frame0
    ∧ (parseBinaryEvents (frameBytes c5Frame0 ++ [0, 0, 0])).length ≠ 1 := by
  refine ⟨by decide, by decide, by decide, ?_⟩
  rw [parseBinaryEvents_cons c5Frame0 [0, 0, 0] (by decide),
    parseBinaryEvents_short [0, 0, 0] (by decide)]
  decide

theorem C5_decoder_roundtrip_witness :
    (∀ f ∈ [c5FrameHi, c5FrameHi], WellFormedFrame f)
    ∧ (∀ f ∈ [c5FrameHi, c5FrameHi], (eventsOfPayload f.payload).length = 1)
    ∧ WellFormedFrame c5FrameHi
    ∧ ((frameBytes c5FrameHi).take 7 <+: frameBytes c5FrameHi)
    ∧ ((frameBytes c5FrameHi).take 7 ≠ frameBytes c5FrameHi)
    ∧ (parseBinaryEvents ((([c5FrameHi, c5FrameHi]).map frameBytes).flatten
         ++ (frameBytes c5FrameHi).take 7)).length = 2 :=
  ⟨by decide, by decide, by decide, by decide, by decide,
   (C5_decoder_roundtrip [c5FrameHi, c5FrameHi] c5FrameHi
     ((frameBytes c5FrameHi).take 7)
     (by decide) (by decide) (by decide) (by decide) (by decide)).2⟩

/-! ### C7: batch response collector -/

/-- One entry of the collector's `tool_uses` dict (insertion-ordered). -/
structure ToolAgg where
  id : Str
  name : Str
  inputJson : Str
  deriving Repr, DecidableEq

/-- The collector's loop state (`collect_full_response`, lines 212-216). -/
structure CollectState where
  currentText : Str := []
  toolUses : List ToolAgg := []
  stopReason : Str := "end_turn".toList
  outputTokens : Nat := 0

/-- `tool_uses[tool_id]["input_json"] += partial_json`, creating the entry
with the delta's name when absent (lines 226-233). -/
def addInput (l : List ToolAgg) (id name pj : Str) : List ToolAgg :=
  match l with
  | [] => [⟨id, name, pj⟩]
  | t :: ts =>
    if t.id = id then { t with inputJson := t.inputJson ++ pj } :: ts
    else t :: addInput ts id name pj

/-- `tool_uses[tool_id] = {…, "input_json": ""}` — overwrites in place,
keeping dict position, or appends (lines 238-243). -/
def setTool (l : List ToolAgg) (id name : Str) : List ToolAgg :=
  match l with
  | [] => [⟨id, name, []⟩]
  | t :: ts =>
    if t.id = id then ⟨id, name, []⟩ :: ts
    else t :: setTool ts id name

/-- One iteration of the event loop of `collect_full_response`
(lines 218-251). -/
def collectStep (st : CollectState) (e : ParsedEvent) : CollectState :=
  match e with
  | .contentBlockDeltaText _ t => { st with currentText := st.currentText ++ t }
  | .contentBlockDeltaInput _ id name pj =>
    { st with toolUses := addInput st.toolUses id name pj }
  | .contentBlockStartTool _ id name =>
    { st with toolUses := setTool st.toolUses id name }
  | .contentBlockStop _ => st
  | .messageDelta sr ot => { st with stopReason := sr, outputTokens := ot }

/-- One block of the collected `content` list. -/
inductive ContentOut
  | textOut (text : Str)
  | toolUseOut (id name : Str) (input : JsonValue)
  deriving Repr

/-- The dict returned by `collect_full_response` (lines 273-277). -/
structure CollectedResponse where
  content : List ContentOut
  stopReason : Str
  outputTokens : Nat

/-- `collect_full_response` (lines 202-277): fold the loop, then build
the content blocks — the aggregated text first (when non-empty), then the
tool uses with their input JSON parsed (`{}` when empty or invalid). -/
def collectFullResponse (events : List ParsedEvent) : CollectedResponse :=
  let st := events.foldl collectStep {}
  { content :=
      (if st.currentText ≠ [] then [ContentOut.textOut st.currentText] else [])
        ++ st.toolUses.map (fun t => ContentOut.toolUseOut t.id t.name
            (if t.inputJson = [] then .obj []
             else ((jsonParse t.inputJson).getD (.obj []))))
    stopReason := st.stopReason
    outputTokens := st.outputTokens }

theorem foldl_collect_text (l : List (Nat × Str)) (st : CollectState) :
    (l.map (fun p => ParsedEvent.contentBlockDeltaText p.1 p.2)).foldl collectStep st
      = { st with currentText := st.currentText ++ (l.map Prod.snd).flatten } := by
  induction l generalizing st with
  | nil => simp
  | cons p ps ih =>
    simp only [List.map_cons, List.foldl_cons, collectStep, List.flatten_cons, ih,
      List.append_assoc]

/-- C7 (amended): a stream of text deltas collects into a single text
block equal to their concatenation, with `stop_reason = "end_turn"` — but
`output_tokens` is `0` (it is only ever overwritten by a `message_delta`
usage field, never computed from the aggregated text). -/
theorem C7_collector (l : List (Nat × Str)) (h : (l.map Prod.snd).flatten ≠ []) :
    collectFullResponse (l.map (fun p => ParsedEvent.contentBlockDeltaText p.1 p.2))
      = { content := [ContentOut.textOut ((l.map Prod.snd).flatten)],
          stopReason := "end_turn".toList,
          outputTokens := 0 } := by
  rw [collectFullResponse, foldl_collect_text]
  simp [h]

/-- C7 as stated fails: collecting a single non-empty text delta leaves
`output_tokens = 0`, which is not the token count of the aggregated text. -/
theorem C7_counterexample :
    (collectFullResponse [ParsedEvent.contentBlockDeltaText 0 ("Hello".toList)]).outputTokens
      ≠ countTokens ("Hello".toList) := by
  decide

theorem C7_collector_witness :
    ((([(0, "Hel".toList), (0, "lo ".toList), (0, "world".toList)]
        : List (Nat × Str)).map Prod.snd).flatten ≠ [])
    ∧ collectFullResponse
        (([(0, "Hel".toList), (0, "lo ".toList), (0, "world".toList)]
          : List (Nat × Str)).map
          (fun p => ParsedEvent.contentBlockDeltaText p.1 p.2))
      = { content := [ContentOut.textOut ("Hello world".toList)],
          stopReason := "end_turn".toList,
          outputTokens := 0 } :=
  ⟨by decide,
   C7_collector [(0, "Hel".toList), (0, "lo ".toList), (0, "world".toList)] (by decide)⟩

/-! ### C9/C10/C6: request converter and non-streaming proxy path -/

/-- One item of a `tool_result`'s list-shaped `content`: a dict with
`type == "text"` (whose `text` defaults to `""`), or anything else. -/
inductive ToolResultItem
  | textItem (text : Str)
  | otherItem
  deriving Repr, DecidableEq

/-- A `tool_result` block's `content` field: a string, a list of items,
or anything else (contributing nothing). -/
inductive ToolResultContent
  | str (s : Str)
  | items (l : List ToolResultItem)
  | other
  deriving Repr, DecidableEq

/-- One dict entry of a list-shaped message content: a `text` block, a
`tool_result` block, or anything else (non-dict, other `type`, …). -/
inductive ContentBlock
  | text (text : Str)
  | toolResult (c : ToolResultContent)
  | other
  deriving Repr, DecidableEq

/-- A message's `content`: a string, a list of dict blocks, or anything
else. -/
inductive MessageContent
  | str (s : Str)
  | blocks (l : List ContentBlock)
  | other
  deriving Repr, DecidableEq

def placeholderText : Str := "answer for user question".toList

/-- The `texts` list accumulated by the block loop of
`get_message_content` (lines 31-47): non-empty `text` blocks; string
`tool_result` contents unconditionally (even `""`); `text`-typed items of
list `tool_result` contents unconditionally (defaulting to `""`). -/
def blockTexts (l : List ContentBlock) : List Str :=
  l.flatMap fun b =>
    match b with
    | .text t => if t ≠ [] then [t] else []
    | .toolResult (.str s) => [s]
    | .toolResult (.items items) =>
      items.filterMap fun i =>
        match i with
        | .textItem t => some t
        | .otherItem => none
    | .toolResult .other => []
    | .other => []

/-- `get_message_content` (lines 17-50). -/
def getMessageContent (content : MessageContent) : Str :=
  match content with
  | .str s => if s ≠ [] then s else placeholderText
  | .blocks l =>
    let texts := blockTexts l
    if texts ≠ [] then List.intercalate ['\n'] texts else placeholderText
  | .other => placeholderText

/-- An inbound Anthropic message (only the fields these claims read). -/
structure MessageModel where
  role : Str
  content : MessageContent
  deriving Repr, DecidableEq

/-- The `currentMessage.userInputMessage` dict of
`build_codewhisperer_request` (lines 96-122): content extracted from the
last message (blocks already `model_dump`ped to dicts). -/
structure UserInputMessage where
  content : Str
  modelId : Str
  origin : Str
  deriving Repr, DecidableEq

def buildCodewhispererCurrentMessage (mappedModel : Str)
    (messages : List MessageModel) (h : messages ≠ []) : UserInputMessage :=
  { content := getMessageContent (messages.getLast h).content
    modelId := mappedModel
    origin := "AI_EDITOR".toList }

/-- One upstream reply: HTTP status and raw body bytes. -/
structure UpstreamResponse where
  status : Nat
  body : List Nat

/-- `config.AccountConfig` (config.py lines 13-18), the fields
`build_codewhisperer_request` reads. -/
structure AccountConfig where
  name : Str
  profileArn : Str
  deriving Repr, DecidableEq

/-- What Python actually binds to the `account` parameter of
`build_codewhisperer_request`: annotations are not enforced, so a plain
string can arrive there (and does — `proxy_request` passes the
profile-ARN string, api_proxy.py line 56). -/
inductive ConverterAccountArg
  | accountArg (a : AccountConfig)
  | strArg (s : Str)
  deriving Repr, DecidableEq

/-- The attribute lookup `account.profile_arn`
(request_converter.py line 108): an `AttributeError` — `none` — when the
argument is a string. -/
def profileArnAttr (account : ConverterAccountArg) : Option Str :=
  match account with
  | .accountArg a => some a.profileArn
  | .strArg _ => none

/-- The parts of the dict built by `build_codewhisperer_request` that
these claims read. -/
structure BuiltRequest where
  profileArn : Str
  currentMessage : UserInputMessage
  deriving Repr, DecidableEq

/-- `build_codewhisperer_request` (request_converter.py lines 78-122) as
called at runtime: `messages[-1]` raises `IndexError` on an empty list
(line 96), and `account.profile_arn` raises `AttributeError` when
`account` is a string (line 108); either exception is `none`. -/
def buildCodewhispererRequestDyn (mappedModel : Str) (messages : List MessageModel)
    (account : ConverterAccountArg) : Option BuiltRequest :=
  match messages.getLast? with
  | none => none
  | some lastMsg =>
    match profileArnAttr account with
    | none => none
    | some arn =>
      some { profileArn := arn
             currentMessage :=
               { content := getMessageContent lastMsg.content
                 modelId := mappedModel
                 origin := "AI_EDITOR".toList } }

/-- Called with an actual `AccountConfig` (as the spec intends), the
builder succeeds and its `currentMessage` is
`buildCodewhispererCurrentMessage`. -/
theorem buildCodewhispererRequestDyn_ok (mappedModel : Str)
    (messages : List MessageModel) (h : messages ≠ []) (a : AccountConfig) :
    buildCodewhispererRequestDyn mappedModel messages (.accountArg a)
      = some { profileArn := a.profileArn
               currentMessage := buildCodewhispererCurrentMessage mappedModel messages h } := by
  rw [buildCodewhispererRequestDyn, List.getLast?_eq_getLast _ h]
  simp [profileArnAttr, buildCodewhispererCurrentMessage]

/-- `proxy_request` (api_proxy.py lines 30-92), abstracted over the
upstream's reply to the n-th POST.  Line 56 calls
`build_codewhisperer_request(anthropic_req, profile_arn)`, passing the
profile-ARN *string* where the converter expects an `AccountConfig`; the
resulting `AttributeError` (`Except.error`, tagged with the number of
POSTs already made — zero, line 56 precedes the `try`/httpx block)
propagates.  Otherwise: POST once; on 401/403 with retry enabled,
force-refresh and POST once more; return the final reply and the number
of POSTs. -/
def proxyRequest (mappedModel : Str) (messages : List MessageModel)
    (profileArn : Str) (upstream : Nat → UpstreamResponse)
    (retryOnAuthError : Bool) : Except Nat (UpstreamResponse × Nat) :=
  match buildCodewhispererRequestDyn mappedModel messages (.strArg profileArn) with
  | none => .error 0
  | some _cwRequest =>
    let r1 := upstream 0
    if (r1.status = 401 ∨ r1.status = 403) ∧ retryOnAuthError then .ok (upstream 1, 2)
    else .ok (r1, 1)

/-- The dict returned by `handle_non_streaming_request`: the error dict
of lines 112-117, or the message dict of lines 125-137. -/
inductive NonStreamingResult
  | errorDict (status : Nat) (body : List Nat)
  | messageDict (content : List ContentOut) (stopReason : Str)
      (inputTokens outputTokens : Nat)

/-- `handle_non_streaming_request` (lines 95-139) as a function of the
outcome of its `proxy_request` call (line 109) — an exception there
(tagged with its POST count) propagates.  On a reply, the non-200 error
dict or the message dict, paired with the number of upstream POSTs;
`usage.input_tokens` is the length of the text extracted from the first
message (`""` when there are none). -/
def handleNonStreamingRequest (messages : List MessageModel)
    (proxyOutcome : Except Nat (UpstreamResponse × Nat)) :
    Except Nat (NonStreamingResult × Nat) :=
  match proxyOutcome with
  | .error n => .error n
  | .ok (r, n) =>
    if r.status ≠ 200 then .ok (.errorDict r.status r.body, n)
    else
      let result := collectFullResponse (parseBinaryEvents r.body)
      .ok (.messageDict result.content result.stopReason
        (getMessageContent
          (match messages with | [] => .str [] | m :: _ => m.content)).length
        result.outputTokens, n)

/-- The non-streaming arm of `messages_endpoint` (server.py lines
152-186): the handler's dict is wrapped in `JSONResponse(content=response)`
with the default HTTP status 200 (lines 166-167/181-182), while an
exception escaping the handler hits `except Exception` and raises
`HTTPException(status_code=500)` (line 186).  Returns (HTTP status,
response dict if any, upstream POSTs made). -/
def messagesEndpointNonStreaming (mappedModel : Str) (messages : List MessageModel)
    (profileArn : Str) (upstream : Nat → UpstreamResponse) :
    Nat × Option NonStreamingResult × Nat :=
  match handleNonStreamingRequest messages
      (proxyRequest mappedModel messages profileArn upstream true) with
  | .error n => (500, none, n)
  | .ok (res, n) => (200, some res, n)

/-- `usage.input_tokens` of a handler outcome that carries a message dict. -/
def handlerInputTokens (x : Except Nat (NonStreamingResult × Nat)) : Option Nat :=
  match x with
  | .ok (.messageDict _ _ it _, _) => some it
  | _ => none

/-- C9 (amended): the placeholder is substituted exactly when the
collected `texts` list is empty — in particular for an empty-string last
message (the built request's `currentMessage` content is the placeholder)
and for a block list collecting nothing.  (A `tool_result` whose `content`
is the empty string defeats this: it is appended unconditionally, so the
extracted text is `""`, not the placeholder — see the counterexample.) -/
theorem C9_placeholder (mappedModel : Str) (messages : List MessageModel)
    (h : messages ≠ []) (l : List ContentBlock)
    (hempty : (messages.getLast h).content = .str [])
    (hl : blockTexts l = []) :
    (buildCodewhispererCurrentMessage mappedModel messages h).content = placeholderText
    ∧ getMessageContent (.blocks l) = placeholderText := by
  constructor
  · simp [buildCodewhispererCurrentMessage, hempty, getMessageContent]
  · simp [getMessageContent, hl]

/-- C9 as stated fails: a message whose only block is a `tool_result`
with empty-string content extracts to the empty string, not to the
placeholder — `tool_content` is appended to `texts` unconditionally, so
`texts == [""]` is truthy and `"\n".join` returns `""`. -/
theorem C9_counterexample :
    getMessageContent (.blocks [ContentBlock.toolResult (.str [])]) ≠ placeholderText
    ∧ getMessageContent (.blocks [ContentBlock.toolResult (.str [])]) = [] := by
  decide

theorem C9_placeholder_witness :
    (([⟨"user".toList, .str ("hi".toList)⟩, ⟨"user".toList, .str []⟩]
        : List MessageModel) ≠ [])
    ∧ (([⟨"user".toList, .str ("hi".toList)⟩, ⟨"user".toList, .str []⟩]
          : List MessageModel).getLast (by decide)).content = .str []
    ∧ blockTexts [ContentBlock.other] = []
    ∧ (buildCodewhispererCurrentMessage ("model".toList)
        [⟨"user".toList, .str ("hi".toList)⟩, ⟨"user".toList, .str []⟩]
        (by decide)).content = placeholderText
    ∧ getMessageContent (.blocks [ContentBlock.other]) = placeholderText :=
  ⟨by decide, by decide, by decide,
   (C9_placeholder ("model".toList)
     [⟨"user".toList, .str ("hi".toList)⟩, ⟨"user".toList, .str []⟩]
     (by decide) [ContentBlock.other] (by decide) (by decide)).1,
   (C9_placeholder ("model".toList)
     [⟨"user".toList, .str ("hi".toList)⟩, ⟨"user".toList, .str []⟩]
     (by decide) [ContentBlock.other] (by decide) (by decide)).2⟩

/-- C10: on the success path — given a 200 reply from the proxy —
`usage.input_tokens` is the length of the text extracted from the first
message's content alone — the remaining messages are ignored — and with
no messages it is the placeholder's length, 24. -/
theorem C10_input_tokens (m0 : MessageModel) (rest rest' : List MessageModel)
    (r : UpstreamResponse) (n : Nat) (hok : r.status = 200) :
    handlerInputTokens (handleNonStreamingRequest (m0 :: rest) (.ok (r, n)))
      = some (getMessageContent m0.content).length
    ∧ handlerInputTokens (handleNonStreamingRequest (m0 :: rest') (.ok (r, n)))
        = handlerInputTokens (handleNonStreamingRequest (m0 :: rest) (.ok (r, n)))
    ∧ handlerInputTokens (handleNonStreamingRequest [] (.ok (r, n)))
        = some placeholderText.length
    ∧ placeholderText.length = 24 := by
  refine ⟨?_, ?_, ?_, by decide⟩ <;>
    simp [handleNonStreamingRequest, hok, handlerInputTokens, getMessageContent,
      placeholderText]

theorem C10_input_tokens_witness :
    (⟨200, []⟩ : UpstreamResponse).status = 200
    ∧ handlerInputTokens
        (handleNonStreamingRequest
          [⟨"user".toList, .str ("Hello".toList)⟩,
           ⟨"assistant".toList, .str ("x".toList)⟩]
          (.ok (⟨200, []⟩, 1)))
      = some (getMessageContent (.str ("Hello".toList))).length
    ∧ handlerInputTokens (handleNonStreamingRequest [] (.ok (⟨200, []⟩, 1)))
      = some placeholderText.length :=
  ⟨rfl,
   (C10_input_tokens ⟨"user".toList, .str ("Hello".toList)⟩
     [⟨"assistant".toList, .str ("x".toList)⟩] [] ⟨200, []⟩ 1 rfl).1,
   (C10_input_tokens ⟨"user".toList, .str ("Hello".toList)⟩
     [⟨"assistant".toList, .str ("x".toList)⟩] [] ⟨200, []⟩ 1 rfl).2.2.1⟩

/-- C6 divergence: on a non-streaming request, `proxy_request` crashes at
line 56 — `build_codewhisperer_request` receives the profile-ARN string
in its `account` parameter and `account.profile_arn` raises
`AttributeError` — before any upstream POST, so whatever the upstream
would answer (here 401), *zero* upstream POSTs are made, not the claimed
two; the exception escapes to `messages_endpoint`'s `except`, so the
client does receive HTTP 500, but without the 401s ever being seen. -/
theorem C6_status_divergence :
    proxyRequest ("model".toList) [⟨"user".toList, .str ("hi".toList)⟩]
        ("arn".toList) (fun _ => ⟨401, []⟩) true = .error 0
    ∧ (messagesEndpointNonStreaming ("model".toList)
        [⟨"user".toList, .str ("hi".toList)⟩] ("arn".toList)
        (fun _ => ⟨401, []⟩)).1 = 500
    ∧ (messagesEndpointNonStreaming ("model".toList)
        [⟨"user".toList, .str ("hi".toList)⟩] ("arn".toList)
        (fun _ => ⟨401, []⟩)).2.2 = 0
    ∧ (messagesEndpointNonStreaming ("model".toList)
        [⟨"user".toList, .str ("hi".toList)⟩] ("arn".toList)
        (fun _ => ⟨401, []⟩)).2.2 ≠ 2 :=
  ⟨rfl, rfl, rfl, by decide⟩

end KiroApi
